import Mathlib

/-!
Verification of the caltrain-status incident reconciliation and uptime
engine, shallowly embedded from src/app.js and
src/scripts/ingest_emails_imap.js.

Modelling conventions:
* Timestamps are Int epoch milliseconds.  The JavaScript code stores ISO-8601
  strings and compares them through new Date(...); valid timestamps correspond
  one-to-one to their millisecond values, so the embedding works on the
  milliseconds directly.  The runtime is modelled with a UTC local timezone,
  under which the toISOString-based and getFullYear-based date keys agree.
* JavaScript strings are Lean Strings; a missing or undefined string field is
  the empty string (the code only ever distinguishes falsy from truthy).
  Character classes follow their ASCII meaning.
* Array.prototype.sort with a numeric comparator is modelled by a stable
  insertion sort on the compared key, matching the stable ECMAScript sort.
-/

namespace Caltrain

/-! Generic character and list helpers shared by the embedded functions. -/

/-- ASCII reading of the JavaScript regex class backslash-w: [A-Za-z0-9_]. -/
def isWordChar (c : Char) : Bool := c.isAlphanum || c == '_'

/-- ASCII reading of the JavaScript regex class backslash-s (whitespace). -/
def isSpaceChar (c : Char) : Bool :=
  c == ' ' || c == '\t' || c == '\n' || c == '\r' || c == '\x0b' || c == '\x0c'

/-- ASCII slug alphabet [a-z0-9] used by slugify. -/
def isSlugChar (c : Char) : Bool := ('a' ≤ c && c ≤ 'z') || c.isDigit

/-- Both-ends whitespace trim, as String.prototype.trim. -/
def trimChars (s : List Char) : List Char :=
  ((s.dropWhile isSpaceChar).reverse.dropWhile isSpaceChar).reverse

/-- Collapse every run of characters selected by p into the single
character r; the Bool argument remembers whether the previous character was
inside such a run. -/
def collapseRunsAux (p : Char → Bool) (r : Char) : Bool → List Char → List Char
  | _, [] => []
  | prevRun, c :: s =>
    if p c then
      if prevRun then collapseRunsAux p r true s
      else r :: collapseRunsAux p r true s
    else c :: collapseRunsAux p r false s

/-- Replacement of every whitespace run by a single blank, the step
.replace(, a single blank) of normalizeSubject and summarizeBody. -/
def collapseSpaces (s : List Char) : List Char :=
  collapseRunsAux isSpaceChar ' ' false s

/-- First-occurrence deduplication, the meaning of Array.from(new Set(xs))
for a list of strings. -/
def dedupFirst : List String → List String
  | [] => []
  | a :: l => a :: dedupFirst (l.filter (fun x => x ≠ a))
termination_by l => l.length
decreasing_by
  simp only [List.length_cons]
  exact Nat.lt_succ_of_le (List.length_filter_le _ _)

/-- JavaScript string-or: a || b for strings, where only "" is falsy. -/
def orElseStr (a b : String) : String := if a = "" then b else a

/-- First character upper-cased, the headline capitalisation in
buildParsedEvent. -/
def capitalizeFirst (s : String) : String :=
  match s.data with
  | [] => ""
  | c :: rest => String.mk (c.toUpper :: rest)

/-- Split on newline or carriage-return-newline, the split used by
firstNonEmptyLine. -/
def splitLinesCRLF : List Char → List (List Char)
  | [] => [[]]
  | '\r' :: '\n' :: rest => [] :: splitLinesCRLF rest
  | '\n' :: rest => [] :: splitLinesCRLF rest
  | c :: rest =>
    match splitLinesCRLF rest with
    | [] => [[c]]
    | l :: ls => (c :: l) :: ls

/-- Case-insensitive literal match at the head of a character list,
returning the remainder after the literal. The literal is given in lower
case. -/
def matchesCI : List Char → List Char → Option (List Char)
  | [], s => some s
  | c :: lit, x :: s => if x.toLower == c then matchesCI lit s else none
  | _ :: _, [] => none

/-- Word boundary after a match: end of input or a non-word character. -/
def endBoundaryOK : List Char → Bool
  | [] => true
  | c :: _ => !isWordChar c

/-- Try every alternative literal in order; an alternative succeeds when it
matches and is followed by a word boundary (each alternative both starts
and ends with a word character). -/
def tryLitsB (lits : List (List Char)) (s : List Char) : Option (List Char) :=
  match lits with
  | [] => none
  | lit :: rest =>
    match matchesCI lit s with
    | some r => if endBoundaryOK r then some r else tryLitsB rest s
    | none => tryLitsB rest s

/-- Scan deleting every word-bounded, case-insensitive occurrence of one of
the alternative literals, as the global regex replaces in normalizeSubject.
The Bool argument tracks whether the previous input character was a word
character (the left word-boundary); the fuel is an upper bound on the scan
steps and is never exhausted when it starts at the input length plus one,
since every step consumes at least one input character. -/
def removeBoundedGo (lits : List (List Char)) : Nat → Bool → List Char → List Char
  | 0, _, s => s
  | _ + 1, _, [] => []
  | fuel + 1, prevW, c :: s =>
    if !prevW && isWordChar c then
      match tryLitsB lits (c :: s) with
      | some r => removeBoundedGo lits fuel true r
      | none => c :: removeBoundedGo lits fuel (isWordChar c) s
    else c :: removeBoundedGo lits fuel (isWordChar c) s

/-- Delete every word-bounded occurrence of one of the literals. -/
def removeBounded (lits : List (List Char)) (s : List Char) : List Char :=
  removeBoundedGo lits (s.length + 1) false s

/-- Existence of a word-bounded, case-insensitive occurrence of one of the
alternative literals, as the regex tests in inferSeverityAndStatus. -/
def containsBounded (lits : List (List Char)) : Bool → List Char → Bool
  | _, [] => false
  | prevW, c :: s =>
    (!prevW && isWordChar c && (tryLitsB lits (c :: s)).isSome) ||
      containsBounded lits (isWordChar c) s

/-- Literal alternatives from lower-case strings. -/
def litsOf (ws : List String) : List (List Char) := ws.map String.data

/-- Stable insertion of a into a list: a is placed before the first element
b with lt a b, hence after every earlier element that does not compare
strictly below it. -/
def insSorted (lt : α → α → Bool) (a : α) : List α → List α
  | [] => [a]
  | b :: l => if lt a b then a :: b :: l else b :: insSorted lt a l

/-- Stable sort by the strict comparison lt, the model of the stable
Array.prototype.sort with a numeric comparator. -/
def sortByLt (lt : α → α → Bool) (l : List α) : List α :=
  l.foldl (fun acc x => insSorted lt x acc) []

/-! Calendar arithmetic: day number to UTC civil date, the content of
Date.prototype.toISOString date fields.  Standard era-based civil-calendar
conversion. -/

/-- Civil UTC date (year, month, day) of a day count since 1970-01-01. -/
def civilFromDays (z0 : Int) : Int × Int × Int :=
  let z := z0 + 719468
  let era := z.fdiv 146097
  let doe := z - era * 146097
  let yoe := (doe - doe.fdiv 1460 + doe.fdiv 36524 - doe.fdiv 146096).fdiv 365
  let y := yoe + era * 400
  let doy := doe - (365 * yoe + yoe.fdiv 4 - yoe.fdiv 100)
  let mp := (5 * doy + 2).fdiv 153
  let d := doy - (153 * mp + 2).fdiv 5 + 1
  let m := mp + (if mp < 10 then 3 else -9)
  (y + (if m ≤ 2 then 1 else 0), m, d)

/-- Zero-padded two-digit rendering of a month or day number. -/
def pad2 (n : Int) : String := if n < 10 then "0" ++ toString n else toString n

/-- Milliseconds in a day (DAY_MS in src/app.js). -/
def DAY_MS : Int := 86400000

/-- Date part of toISOString of an epoch-millisecond timestamp:
YYYY-MM-DD. -/
def isoDateOfMs (ms : Int) : String :=
  let ymd := civilFromDays (ms.fdiv DAY_MS)
  toString ymd.1 ++ "-" ++ pad2 ymd.2.1 ++ "-" ++ pad2 ymd.2.2

/-- Month part of toISOString of an epoch-millisecond timestamp: YYYY-MM,
the shard period of applyEventToRepo. -/
def periodOfMs (ms : Int) : String :=
  let ymd := civilFromDays (ms.fdiv DAY_MS)
  toString ymd.1 ++ "-" ++ pad2 ymd.2.1

/-! Presentation model, from src/app.js. -/

/-- Derived outage interval (src/app.js buildOutageSegments output); the
half-open interval runs from start to stop in epoch milliseconds.  The
source field name end is a Lean keyword, hence stop. -/
structure Segment where
  start : Int
  stop : Int
  severity : String
deriving Repr, DecidableEq

/-- Floor minute bucket of a millisecond timestamp: Math.floor(t / 60000). -/
def bucketFloor (t : Int) : Int := t.fdiv 60000

/-- Ceiling minute bucket of a millisecond timestamp: Math.ceil(t / 60000). -/
def bucketCeil (t : Int) : Int := -((-t).fdiv 60000)

/-- Minute buckets occupied by a segment, the inner loop of
mergedDowntimeBuckets. -/
def segmentBuckets (seg : Segment) : Finset Int :=
  Finset.Ico (bucketFloor seg.start) (bucketCeil seg.stop)

/-- Clip segments to a window, dropping empty results and sorting by start
ascending (src/app.js clippedSegments). -/
def clippedSegments (segments : List Segment) (windowStart windowEnd : Int) :
    List Segment :=
  sortByLt (fun a b => a.start < b.start)
    (segments.filterMap (fun segment =>
      let s := max segment.start windowStart
      let e := min segment.stop windowEnd
      if e ≤ s then none else some ⟨s, e, segment.severity⟩))

/-- Count of distinct occupied minute buckets of the clipped segments
(src/app.js mergedDowntimeBuckets). -/
def mergedDowntimeBuckets (segments : List Segment) (windowStart windowEnd : Int) :
    Nat :=
  let clipped := clippedSegments segments windowStart windowEnd
  if clipped.isEmpty then 0
  else (clipped.foldl (fun occupied seg => occupied ∪ segmentBuckets seg) ∅).card

/-- Percentage uptime of a window at minute-bucket granularity (src/app.js
uptimeForWindow). -/
def uptimeForWindow (segments : List Segment) (windowStart windowEnd : Int) : ℚ :=
  let denominator := bucketCeil windowEnd - bucketFloor windowStart
  if denominator ≤ 0 then 100
  else
    let downtime := mergedDowntimeBuckets segments windowStart windowEnd
    max 0 (min 100 (((denominator : ℚ) - (downtime : ℚ)) / (denominator : ℚ) * 100))

/-- Severity band of an uptime percentage (src/app.js uptimeBandForPercent). -/
def uptimeBandForPercent (value : ℚ) : String :=
  if 98 ≤ value then "operational"
  else if 95 ≤ value then "degraded"
  else "major"

/-- Modelled from the spec: the daily severity-band thresholds the claim
asserts (99.95 operational, 99.0 degraded, 97.0 major, else critical);
stated only to be compared against uptimeBandForPercent, which is what the
code computes. -/
def specSeverityBandForPercent (value : ℚ) : String :=
  if 99.95 ≤ value then "operational"
  else if 99 ≤ value then "degraded"
  else if 97 ≤ value then "major"
  else "critical"

/-- Severity normalization of free-form state labels (src/app.js
normalizeSeverity); the falsy inputs of the JavaScript function are
modelled by the empty string. -/
def normalizeSeverity (value : String) : String :=
  if value = "" then "operational"
  else if value = "degraded" then "degraded"
  else if value = "minor" then "minor"
  else if value = "major" then "major"
  else if value = "critical" then "critical"
  else if value = "identified" ∨ value = "investigating" ∨ value = "monitoring" then
    "degraded"
  else if value = "resolved" then "operational"
  else "degraded"

/-- Start of the UTC day containing a timestamp (src/app.js startOfDay under
the UTC runtime timezone). -/
def startOfDayUTC (t : Int) : Int := (t.fdiv DAY_MS) * DAY_MS

/-- One row of the recent_days report of computeUptimeFromIncidents. -/
structure RecentDay where
  date : String
  uptime_percent : ℚ
  uptime_band : String
deriving Repr, DecidableEq

/-- Daily buckets of computeUptimeFromIncidents (src/app.js lines 285-295):
thirty trailing UTC days ending at the completed-day boundary, each with
its windowed uptime and the band of that uptime. -/
def recentDays (segments : List Segment) (referenceNow : Int) : List RecentDay :=
  let completedDayBoundary := startOfDayUTC referenceNow
  (List.range 30).map (fun k =>
    let offset : Int := (k : Int) - 29
    let dayStart := completedDayBoundary + offset * DAY_MS
    let dayEnd := dayStart + DAY_MS
    let dayUptime := uptimeForWindow segments dayStart dayEnd
    { date := isoDateOfMs dayStart
      uptime_percent := dayUptime
      uptime_band := uptimeBandForPercent dayUptime })

/-! Ingestion model, from src/scripts/ingest_emails_imap.js. -/

/-- Subject normalization (ingest_emails_imap.js normalizeSubject): strip a
leading reply or forward marker, delete the word caltrain and the alert
buzzwords, turn the remaining punctuation into blanks, collapse whitespace
and trim. -/
def stripReplyMarker (s : List Char) : List Char :=
  let afterWs := s.dropWhile isSpaceChar
  let tryTag (tag : List Char) : Option (List Char) :=
    match matchesCI tag afterWs with
    | none => none
    | some r =>
      match (r.dropWhile isSpaceChar) with
      | ':' :: rest => some (rest.dropWhile isSpaceChar)
      | _ => none
  match tryTag ("fwd").data with
  | some r => r
  | none =>
    match tryTag ("fw").data with
    | some r => r
    | none =>
      match tryTag ("re").data with
      | some r => r
      | none => s

/-- Non-word, non-space, non-hyphen characters become blanks, the step
.replace of the character class complement in normalizeSubject. -/
def punctToSpace (s : List Char) : List Char :=
  s.map (fun c => if isWordChar c || isSpaceChar c || c == '-' then c else ' ')

/-- Normalized subject key text (ingest_emails_imap.js normalizeSubject). -/
def normalizeSubject (subject : String) : String :=
  let s1 := stripReplyMarker subject.data
  let s2 := removeBounded [("caltrain").data] s1
  let s3 := removeBounded (litsOf ["alert", "advisory", "service update", "notification"]) s2
  String.mk (trimChars (collapseSpaces (punctToSpace s3)))

/-- Lower-case dashed slug of a text with the fallback email-alert
(ingest_emails_imap.js slugify). -/
def slugify (text : String) : String :=
  let lowered := text.data.map Char.toLower
  let dashed := collapseRunsAux (fun c => !isSlugChar c) '-' false lowered
  let stripped := (dashed.dropWhile (· == '-')).reverse.dropWhile (· == '-') |>.reverse
  let cut := stripped.take 60
  if cut.isEmpty then "email-alert" else String.mk cut

/-- First non-empty trimmed line of a text (ingest_emails_imap.js
firstNonEmptyLine). -/
def firstNonEmptyLine (text : String) : String :=
  match (splitLinesCRLF text.data).findSome?
      (fun line =>
        let t := trimChars line
        if t.isEmpty then none else some t) with
  | some t => String.mk t
  | none => ""

/-- One-line, 300-character summary of a body (ingest_emails_imap.js
summarizeBody). -/
def summarizeBody (text : String) : String :=
  let oneLine := trimChars (collapseSpaces text.data)
  if oneLine.isEmpty then "Email alert received; parser placeholder used."
  else String.mk (oneLine.take 300)

/-- Classification triple of inferSeverityAndStatus. -/
structure SeverityInfo where
  severity : String
  status : String
  updateState : String
deriving Repr, DecidableEq

/-- Keyword classification of subject and body (ingest_emails_imap.js
inferSeverityAndStatus); the alternative clear(ed)? is spelled out as the
two literals cleared and clear. -/
def inferSeverityAndStatus (subject bodyText : String) : SeverityInfo :=
  let haystack := (subject ++ "\n" ++ bodyText).data.map Char.toLower
  if containsBounded
      (litsOf ["resolved", "restored", "normal service", "back to normal", "cleared", "clear"])
      false haystack then
    ⟨"minor", "resolved", "operational"⟩
  else if containsBounded
      (litsOf ["no service", "service suspended", "all trains stopped", "shutdown"])
      false haystack then
    ⟨"critical", "investigating", "critical"⟩
  else if containsBounded
      (litsOf ["major disruption", "disabled train", "signal issue", "police activity", "single-track"])
      false haystack then
    ⟨"major", "investigating", "major"⟩
  else if containsBounded
      (litsOf ["delay", "delays", "late", "reduced speed", "inspection", "holding"])
      false haystack then
    ⟨"minor", "investigating", "degraded"⟩
  else ⟨"minor", "investigating", "degraded"⟩

/-- Plain substring containment on lower-cased text, the includes calls of
inferAffectedSegments. -/
def containsSub (needle : List Char) : List Char → Bool
  | [] => needle.isPrefixOf ([] : List Char)
  | c :: rest => needle.isPrefixOf (c :: rest) || containsSub needle rest

/-- Affected directions inferred from subject and body
(ingest_emails_imap.js inferAffectedSegments), preserving the push order of
the source. -/
def inferAffectedSegments (subject bodyText : String) : List String :=
  let haystack := (subject ++ "\n" ++ bodyText).data.map Char.toLower
  let segments : List String := []
  let segments :=
    if containsSub ("northbound").data haystack then segments ++ ["Northbound"] else segments
  let segments :=
    if containsSub ("southbound").data haystack then segments ++ ["Southbound"] else segments
  let segments :=
    if containsSub ("both directions").data haystack then
      let segments :=
        if "Northbound" ∈ segments then segments else segments ++ ["Northbound"]
      if "Southbound" ∈ segments then segments else segments ++ ["Southbound"]
    else segments
  if segments.isEmpty then ["System-wide"] else segments

/-- Inbound message as handed to buildParsedEvent by the IMAP driver; a
missing date is None, a missing subject or body is the empty string. -/
structure InboundMessage where
  messageId : String
  subject : String
  bodyText : String
  receivedAt : Option Int
deriving Repr, DecidableEq

/-- Parsed alert event (ingest_emails_imap.js buildParsedEvent output). -/
structure AlertEvent where
  messageId : String
  receivedAt : Int
  subject : String
  bodyText : String
  subjectKey : String
  title : String
  summary : String
  severity : String
  incidentStatus : String
  updateState : String
  affectedSegments : List String
  updateMessage : String
deriving Repr, DecidableEq

/-- Normalization of an inbound message into an alert event
(ingest_emails_imap.js buildParsedEvent); now is the ingestion wall-clock
instant that the source reads when the message carries no date. -/
def buildParsedEvent (now : Int) (message : InboundMessage) : AlertEvent :=
  let subject := orElseStr message.subject "(No subject)"
  let bodyText := message.bodyText
  let receivedAt := message.receivedAt.getD now
  let normalizedSubject := normalizeSubject subject
  let subjectKey := slugify (orElseStr normalizedSubject subject)
  let headline :=
    orElseStr normalizedSubject (orElseStr (firstNonEmptyLine bodyText) "Caltrain service alert")
  let severityInfo := inferSeverityAndStatus subject bodyText
  { messageId := message.messageId
    receivedAt := receivedAt
    subject := subject
    bodyText := bodyText
    subjectKey := subjectKey
    title := capitalizeFirst headline
    summary := summarizeBody bodyText
    severity := severityInfo.severity
    incidentStatus := severityInfo.status
    updateState := severityInfo.updateState
    affectedSegments := inferAffectedSegments subject bodyText
    updateMessage := orElseStr (firstNonEmptyLine bodyText) subject }

/-- Incident update entry. -/
structure Update where
  timestamp : Int
  state : String
  message : String
  source_message_id : String
deriving Repr, DecidableEq

/-- Persistent incident record of a monthly shard. -/
structure Incident where
  id : String
  title : String
  severity : String
  status : String
  started_at : Int
  resolved_at : Option Int
  affected_segments : List String
  summary : String
  updates : List Update
  ingestion_key : String
deriving Repr, DecidableEq

/-- Monthly incident shard (the parsed incidents.json document). -/
structure Shard where
  period : String
  items : List Incident
deriving Repr, DecidableEq

/-- Severity rank table with default zero (ingest_emails_imap.js
severityRank). -/
def severityRank (severity : String) : Nat :=
  if severity = "operational" then 0
  else if severity = "minor" then 1
  else if severity = "degraded" then 1
  else if severity = "major" then 2
  else if severity = "critical" then 3
  else 0

/-- Candidate test of findMatchingIncident: same ingestion key, or same
normalized title. -/
def isCandidate (e : AlertEvent) (incident : Incident) : Bool :=
  incident.ingestion_key == e.subjectKey ||
    normalizeSubject incident.title == normalizeSubject e.title

/-- Position-indexed items of a shard; the index stands for the object
identity of the JavaScript incident records. -/
def enumItems (n : Nat) : List Incident → List (Nat × Incident)
  | [] => []
  | incident :: rest => (n, incident) :: enumItems (n + 1) rest

/-- Indexed candidate list of findMatchingIncident. -/
def candidatesOf (shard : Shard) (e : AlertEvent) : List (Nat × Incident) :=
  (enumItems 0 shard.items).filter (fun p => isCandidate e p.2)

/-- Selection among the sorted candidates: the first non-resolved one, or
else the head; both branches of the source return this same expression. -/
def chooseCandidate (sorted : List (Nat × Incident)) : Option (Nat × Incident) :=
  match sorted.find? (fun p => !(p.2.status == "resolved")) with
  | some p => some p
  | none => sorted.head?

/-- Matching incident of an event in a shard (ingest_emails_imap.js
findMatchingIncident), with its position. -/
def findMatchingIncident (shard : Shard) (e : AlertEvent) : Option (Nat × Incident) :=
  let candidates := candidatesOf shard e
  if candidates.isEmpty then none
  else chooseCandidate (sortByLt (fun a b => b.2.started_at < a.2.started_at) candidates)

/-- Suffix search of createIncidentId; the fuel bounds the scan and is
never exhausted when it exceeds the number of existing ids. -/
def suffixLoop (ids : List String) (base : String) : Nat → Nat → String
  | 0, counter => base ++ "-" ++ toString counter
  | fuel + 1, counter =>
    let candidate := base ++ "-" ++ toString counter
    if candidate ∈ ids then suffixLoop ids base fuel (counter + 1) else candidate

/-- Deterministic incident id from start date and subject key with a
collision counter (ingest_emails_imap.js createIncidentId). -/
def createIncidentId (ms : Int) (subjectKey : String) (existingIds : List String) :
    String :=
  let base := "inc-" ++ isoDateOfMs ms ++ "-" ++ subjectKey
  if base ∈ existingIds then suffixLoop existingIds base (existingIds.length + 1) 2
  else base

/-- Fresh incident of the creation branch of upsertIncidentInShard. -/
def freshIncident (existingIds : List String) (e : AlertEvent) : Incident :=
  { id := createIncidentId e.receivedAt e.subjectKey existingIds
    title := e.title
    severity := e.severity
    status := e.incidentStatus
    started_at := e.receivedAt
    resolved_at := if e.incidentStatus = "resolved" then some e.receivedAt else none
    affected_segments := e.affectedSegments
    summary := e.summary
    updates := []
    ingestion_key := e.subjectKey }

/-- Field-merge rules of the update branch of upsertIncidentInShard
(ingest_emails_imap.js lines 238-254). -/
def mergeIncidentFields (incident : Incident) (e : AlertEvent) : Incident :=
  let title := orElseStr incident.title e.title
  let affected_segments := dedupFirst (incident.affected_segments ++ e.affectedSegments)
  let summary := orElseStr e.summary incident.summary
  let severity :=
    if severityRank incident.severity < severityRank e.severity then e.severity
    else incident.severity
  if e.incidentStatus = "resolved" then
    { incident with
      title := title
      affected_segments := affected_segments
      summary := summary
      severity := severity
      status := "resolved"
      resolved_at := some e.receivedAt }
  else if incident.status = "resolved" then
    { incident with
      title := title
      affected_segments := affected_segments
      summary := summary
      severity := severity
      status := "investigating"
      resolved_at := none }
  else
    { incident with
      title := title
      affected_segments := affected_segments
      summary := summary
      severity := severity
      status := orElseStr e.incidentStatus incident.status }

/-- Deduplicated update append with re-sort by timestamp ascending
(ingest_emails_imap.js lines 257-267). -/
def appendEventUpdate (incident : Incident) (e : AlertEvent) : Incident :=
  if incident.updates.any (fun u => u.source_message_id == e.messageId) then incident
  else
    { incident with
      updates :=
        sortByLt (fun a b => a.timestamp < b.timestamp)
          (incident.updates ++
            [{ timestamp := e.receivedAt, state := e.updateState,
               message := e.updateMessage, source_message_id := e.messageId }]) }

/-- Application of an event to a matched incident: the field merge followed
by the shared update-append block. -/
def applyEventToIncident (incident : Incident) (e : AlertEvent) : Incident :=
  appendEventUpdate (mergeIncidentFields incident e) e

/-- Upsert of an event into a shard (ingest_emails_imap.js
upsertIncidentInShard): mutate the matched incident in place, or push a
fresh one; the shared update-append block runs on the result either way. -/
def upsertIncidentInShard (shard : Shard) (e : AlertEvent) : Shard :=
  match findMatchingIncident shard e with
  | some (i, incident) =>
    { shard with items := shard.items.set i (applyEventToIncident incident e) }
  | none =>
    let existingIds := shard.items.map (·.id)
    { shard with
      items := shard.items ++ [appendEventUpdate (freshIncident existingIds e) e] }

/-- Incident store: monthly shards keyed by their period string, the
embedding of the data/incidents/YYYY-MM/incidents.json files. -/
abbrev Repo := List (String × Shard)

/-- Shard lookup by period. -/
def lookupShard (repo : Repo) (p : String) : Option Shard :=
  match repo with
  | [] => none
  | (q, shard) :: rest => if q = p then some shard else lookupShard rest p

/-- Shard write-back by period: replace the entry, or add it for a new
period. -/
def setShard (repo : Repo) (p : String) (shard : Shard) : Repo :=
  match repo with
  | [] => [(p, shard)]
  | (q, old) :: rest =>
    if q = p then (q, shard) :: rest else (q, old) :: setShard rest p shard

/-- Shard save ordering (ingest_emails_imap.js saveShard): items sorted by
started_at descending. -/
def saveShardSort (shard : Shard) : Shard :=
  { shard with items := sortByLt (fun a b => b.started_at < a.started_at) shard.items }

/-- Routing of one event into the store (ingest_emails_imap.js
applyEventToRepo): load or create the monthly shard of the event, stamp its
period, upsert, and save it sorted. -/
def applyEventToRepo (repo : Repo) (e : AlertEvent) : Repo :=
  let p := periodOfMs e.receivedAt
  let shard := (lookupShard repo p).getD { period := p, items := [] }
  let shard := { shard with period := p }
  setShard repo p (saveShardSort (upsertIncidentInShard shard e))

/-- Every incident of every shard of the store. -/
def storeIncidents (repo : Repo) : List Incident :=
  match repo with
  | [] => []
  | (_, shard) :: rest => shard.items ++ storeIncidents rest

/-- Well-formed alert event: the shape buildParsedEvent always produces,
with a two-valued incident status and duplicate-free affected segments. -/
def WellFormedEvent (e : AlertEvent) : Prop :=
  (e.incidentStatus = "investigating" ∨ e.incidentStatus = "resolved") ∧
    e.affectedSegments.Nodup

instance (e : AlertEvent) : Decidable (WellFormedEvent e) := by
  unfold WellFormedEvent; infer_instance

/-! Concrete fixtures used by witnesses and counterexamples.  Incident
fields: id, title, severity, status, started_at, resolved_at,
affected_segments, summary, updates, ingestion_key.  AlertEvent fields:
messageId, receivedAt, subject, bodyText, subjectKey, title, summary,
severity, incidentStatus, updateState, affectedSegments, updateMessage. -/

/-- Open incident fixture with ingestion key alpha, started at 100. -/
def incInvestigating : Incident :=
  ⟨"inc-a", "Ta", "minor", "investigating", 100, none, [], "sa", [], "alpha"⟩

/-- Resolved incident fixture with the same ingestion key, started at 200. -/
def incResolvedNewer : Incident :=
  ⟨"inc-b", "Tb", "minor", "resolved", 200, some 300, [], "sb", [], "alpha"⟩

/-- Incident fixture whose stored updates are out of timestamp order and
already contain the source message id m-9. -/
def incUnsorted : Incident :=
  ⟨"inc-u", "Tu", "minor", "investigating", 0, none, [],
    "su", [⟨5, "degraded", "x", "m-9"⟩, ⟨3, "degraded", "y", "m-8"⟩], "alpha"⟩

/-- Resolving alert event fixture for ingestion key alpha. -/
def evResolving : AlertEvent :=
  ⟨"m-9", 1000, "subj", "", "alpha", "Te", "se", "minor", "resolved",
    "operational", ["System-wide"], "done"⟩

/-- Non-resolving alert event fixture for ingestion key alpha. -/
def evInvestigating : AlertEvent :=
  ⟨"m-8", 1000, "subj", "", "alpha", "Te", "se", "major", "investigating",
    "major", ["System-wide"], "upd"⟩

/-- Non-resolving alert event fixture for ingestion key alpha a month later
(receivedAt 2678400000 is 1970-02-01T00:00:00Z). -/
def evFebruary : AlertEvent :=
  ⟨"m-7", 2678400000, "subj", "", "alpha", "Te", "se", "minor", "investigating",
    "degraded", ["System-wide"], "upd feb"⟩

/-- Non-resolving alert event fixture for ingestion key alpha in 1970-01. -/
def evJanuary : AlertEvent :=
  ⟨"m-6", 0, "subj", "", "alpha", "Te", "se", "minor", "investigating",
    "degraded", ["System-wide"], "upd jan"⟩

/-- Inbound message fixture with no date and a subject that slugifies to the
fallback key. -/
def msgNoDate : InboundMessage := ⟨"m-1", "!!!", "", none⟩

/-- Shard fixture holding the resolved incident before the open one, both
with ingestion key alpha. -/
def shardAB : Shard := ⟨"1970-01", [incResolvedNewer, incInvestigating]⟩

/-! Generic lemmas about the helper functions. -/

theorem insSorted_perm (lt : α → α → Bool) (a : α) (l : List α) :
    (insSorted lt a l).Perm (a :: l) := by
  induction l with
  | nil => exact List.Perm.refl _
  | cons b l ih =>
    simp only [insSorted]
    split
    · exact List.Perm.refl _
    · exact (ih.cons b).trans (List.Perm.swap a b l)

theorem sortByLt_aux_perm (lt : α → α → Bool) :
    ∀ (l acc : List α),
      (l.foldl (fun acc x => insSorted lt x acc) acc).Perm (acc ++ l) := by
  intro l
  induction l with
  | nil => intro acc; simp
  | cons a l ih =>
    intro acc
    simp only [List.foldl_cons]
    have h1 := ih (insSorted lt a acc)
    have h2 : (insSorted lt a acc ++ l).Perm ((a :: acc) ++ l) :=
      (insSorted_perm lt a acc).append_right l
    have h3 : ((a :: acc) ++ l).Perm (acc ++ a :: l) := List.perm_middle.symm
    exact (h1.trans h2).trans h3

theorem sortByLt_perm (lt : α → α → Bool) (l : List α) :
    (sortByLt lt l).Perm l := by
  simpa [sortByLt] using sortByLt_aux_perm lt l []

theorem mem_sortByLt (lt : α → α → Bool) (l : List α) (x : α) :
    x ∈ sortByLt lt l ↔ x ∈ l :=
  (sortByLt_perm lt l).mem_iff

theorem insSorted_pairwise {R : α → α → Prop} (lt : α → α → Bool)
    (hT : Transitive R)
    (hlt : ∀ a b, lt a b = true → R a b) (hge : ∀ a b, lt a b = false → R b a)
    (a : α) {l : List α} (hl : l.Pairwise R) : (insSorted lt a l).Pairwise R := by
  induction l with
  | nil => simp [insSorted]
  | cons b l ih =>
    rw [List.pairwise_cons] at hl
    obtain ⟨hb, hl'⟩ := hl
    simp only [insSorted]
    cases h : lt a b with
    | true =>
      rw [if_pos rfl]
      refine List.pairwise_cons.mpr ⟨?_, List.pairwise_cons.mpr ⟨hb, hl'⟩⟩
      intro x hx
      rcases List.mem_cons.mp hx with rfl | hx
      · exact hlt a x h
      · exact hT (hlt a b h) (hb x hx)
    | false =>
      rw [if_neg (by simp)]
      refine List.pairwise_cons.mpr ⟨?_, ih hl'⟩
      intro x hx
      rcases List.mem_cons.mp ((insSorted_perm lt a l).mem_iff.mp hx) with rfl | hx
      · exact hge x b h
      · exact hb x hx

theorem sortByLt_pairwise {R : α → α → Prop} (lt : α → α → Bool)
    (hT : Transitive R)
    (hlt : ∀ a b, lt a b = true → R a b) (hge : ∀ a b, lt a b = false → R b a)
    (l : List α) : (sortByLt lt l).Pairwise R := by
  suffices h : ∀ (l acc : List α), acc.Pairwise R →
      (l.foldl (fun acc x => insSorted lt x acc) acc).Pairwise R from
    h l [] List.Pairwise.nil
  intro l
  induction l with
  | nil => intro acc hacc; simpa using hacc
  | cons a l ih =>
    intro acc hacc
    exact ih _ (insSorted_pairwise lt hT hlt hge a hacc)

theorem insSorted_map (lt : α → α → Bool) (f : α → α) (a : α) (l : List α)
    (hcomp : ∀ x ∈ l, lt (f a) (f x) = lt a x) :
    insSorted lt (f a) (l.map f) = (insSorted lt a l).map f := by
  induction l with
  | nil => rfl
  | cons b l ih =>
    simp only [List.map_cons, insSorted]
    rw [hcomp b (by simp)]
    by_cases h : lt a b
    · rw [if_pos h, if_pos h]
      simp
    · rw [if_neg h, if_neg h]
      simp only [List.map_cons, List.cons.injEq, true_and]
      exact ih (fun x hx => hcomp x (by simp [hx]))

theorem sortByLt_map (lt : α → α → Bool) (f : α → α) (l : List α)
    (hcomp : ∀ x y, lt (f x) (f y) = lt x y) :
    sortByLt lt (l.map f) = (sortByLt lt l).map f := by
  suffices h : ∀ (l acc : List α),
      ((l.map f).foldl (fun acc x => insSorted lt x acc) (acc.map f)) =
        (l.foldl (fun acc x => insSorted lt x acc) acc).map f by
    simpa using h l []
  intro l
  induction l with
  | nil => intro acc; simp
  | cons a l ih =>
    intro acc
    simp only [List.map_cons, List.foldl_cons]
    rw [insSorted_map lt f a acc (fun x _ => hcomp a x), ih]

theorem sortByLt_singleton (lt : α → α → Bool) (a : α) : sortByLt lt [a] = [a] := rfl

theorem dedupFirst_cons (a : String) (l : List String) :
    dedupFirst (a :: l) = a :: dedupFirst (l.filter (fun x => x ≠ a)) := by
  rw [dedupFirst]

theorem mem_dedupFirst : ∀ (l : List String) (x : String), x ∈ dedupFirst l ↔ x ∈ l := by
  intro l
  induction l using dedupFirst.induct with
  | case1 => intro x; simp [dedupFirst]
  | case2 a l ih =>
    intro x
    rw [dedupFirst_cons, List.mem_cons, ih, List.mem_filter, List.mem_cons]
    by_cases hx : x = a <;> simp [hx]

theorem nodup_dedupFirst : ∀ (l : List String), (dedupFirst l).Nodup := by
  intro l
  induction l using dedupFirst.induct with
  | case1 => simp [dedupFirst]
  | case2 a l ih =>
    rw [dedupFirst_cons]
    refine List.nodup_cons.mpr ⟨?_, ih⟩
    intro hmem
    have := (mem_dedupFirst _ a).mp hmem
    simp [List.mem_filter] at this

theorem dedupFirst_nil : dedupFirst [] = [] := by rw [dedupFirst]

theorem dedupFirst_append_covered : ∀ (l l₂ : List String), l.Nodup →
    (∀ x ∈ l₂, x ∈ l) → dedupFirst (l ++ l₂) = l := by
  intro l
  induction l with
  | nil =>
    intro l₂ _ hsub
    have hnil : l₂ = [] := by
      cases l₂ with
      | nil => rfl
      | cons c cs => exact absurd (hsub c (by simp)) (by simp)
    subst hnil
    simp [dedupFirst_nil]
  | cons a l ih =>
    intro l₂ hnd hsub
    rw [List.nodup_cons] at hnd
    rw [List.cons_append, dedupFirst_cons, List.filter_append]
    have hl : l.filter (fun x => x ≠ a) = l := by
      apply List.filter_eq_self.mpr
      intro x hx
      have hxa : x ≠ a := by
        intro h
        exact hnd.1 (h ▸ hx)
      simpa using hxa
    rw [hl]
    congr 1
    apply ih _ hnd.2
    intro x hx
    rw [List.mem_filter] at hx
    rcases List.mem_cons.mp (hsub x hx.1) with rfl | h
    · simp at hx
    · exact h

theorem enumItems_ge (n : Nat) (l : List Incident) :
    ∀ p ∈ enumItems n l, n ≤ p.1 := by
  induction l generalizing n with
  | nil => intro p hp; simp [enumItems] at hp
  | cons a l ih =>
    intro p hp
    rcases List.mem_cons.mp hp with rfl | hp
    · exact Nat.le_refl n
    · exact Nat.le_of_succ_le (ih (n + 1) p hp)

theorem mem_enumItems (n : Nat) (l : List Incident) :
    ∀ p ∈ enumItems n l, n ≤ p.1 ∧ l.get? (p.1 - n) = some p.2 := by
  induction l generalizing n with
  | nil => intro p hp; simp [enumItems] at hp
  | cons a l ih =>
    intro p hp
    rcases List.mem_cons.mp hp with rfl | hp
    · simp
    · obtain ⟨h1, h2⟩ := ih (n + 1) p hp
      refine ⟨Nat.le_of_succ_le h1, ?_⟩
      have hd : p.1 - n = (p.1 - (n + 1)) + 1 := by omega
      rw [hd]
      simpa using h2

theorem mem_enumItems_of_mem (l : List Incident) (x : Incident) (hx : x ∈ l) :
    ∀ n, ∃ j, (j, x) ∈ enumItems n l := by
  induction l with
  | nil => simp at hx
  | cons a l ih =>
    intro n
    rcases List.mem_cons.mp hx with rfl | hx
    · exact ⟨n, by simp [enumItems]⟩
    · obtain ⟨j, hj⟩ := ih hx (n + 1)
      exact ⟨j, by simp [enumItems, hj]⟩

theorem enumItems_append_singleton (l : List Incident) (a : Incident) :
    ∀ n, enumItems n (l ++ [a]) = enumItems n l ++ [(n + l.length, a)] := by
  induction l with
  | nil => intro n; simp [enumItems]
  | cons b l ih =>
    intro n
    simp only [List.cons_append, enumItems, List.append_eq, List.length_cons, ih (n + 1)]
    have harith : n + 1 + l.length = n + (l.length + 1) := by omega
    rw [harith]

theorem enumItems_set (b : Incident) :
    ∀ (l : List Incident) (i n : Nat),
      enumItems n (l.set i b) =
        (enumItems n l).map (fun p => if p.1 = n + i then (n + i, b) else p) := by
  intro l
  induction l with
  | nil => intro i n; simp [enumItems]
  | cons a l ih =>
    intro i n
    cases i with
    | zero =>
      simp only [List.set_cons_zero, enumItems, List.map_cons]
      have hhead : (if (n, a).1 = n + 0 then ((n + 0 : Nat), b) else (n, a)) = (n, b) := by
        simp
      rw [hhead]
      congr 1
      have hid : ∀ p ∈ enumItems (n + 1) l,
          (if p.1 = n + 0 then ((n + 0 : Nat), b) else p) = id p := by
        intro p hp
        have hge := enumItems_ge (n + 1) l p hp
        simp only [id_eq]
        rw [if_neg (by omega)]
      rw [List.map_congr_left hid, List.map_id]
    | succ i =>
      simp only [List.set_cons_succ, enumItems, List.map_cons]
      have hhead : (if (n, a).1 = n + (i + 1) then ((n + (i + 1) : Nat), b) else (n, a)) =
          (n, a) := by
        rw [if_neg (by simp)]
      rw [hhead, ih i (n + 1)]
      congr 1
      apply List.map_congr_left
      intro p hp
      by_cases hc : p.1 = n + 1 + i
      · rw [if_pos hc, if_pos (by omega)]
        have harith : n + 1 + i = n + (i + 1) := by omega
        rw [harith]
      · rw [if_neg hc, if_neg (by omega)]

theorem set_get?_self : ∀ (l : List α) (i : Nat) (x : α),
    l.get? i = some x → l.set i x = l := by
  intro l
  induction l with
  | nil => intro i x h; simp at h
  | cons a l ih =>
    intro i x h
    cases i with
    | zero => simp_all
    | succ i =>
      simp only [List.get?_cons_succ] at h
      simp [ih i x h]

theorem set_append_singleton (l : List α) (a b : α) :
    (l ++ [a]).set l.length b = l ++ [b] := by
  induction l with
  | nil => rfl
  | cons c l ih => simp [ih]

/-! Claim theorems about the presentation path (src/app.js). -/

theorem uptimeBand_cases (q : ℚ) :
    (uptimeBandForPercent q = "operational" ↔ 98 ≤ q) ∧
    (uptimeBandForPercent q = "degraded" ↔ 95 ≤ q ∧ q < 98) ∧
    (uptimeBandForPercent q = "major" ↔ q < 95) ∧
    uptimeBandForPercent q ≠ "critical" := by
  unfold uptimeBandForPercent
  split_ifs with h1 h2
  · refine ⟨by simp [h1], by simp; intro h; linarith, by simp; linarith, by simp⟩
  · refine ⟨by simp; linarith, by simp [h2]; linarith, by simp; linarith, by simp⟩
  · refine ⟨by simp; linarith, by simp; intro h; linarith, by simp; linarith, by simp⟩

/-- C10: normalizeSeverity is total onto the canonical severity set: every
falsy input and the string resolved map to operational, the three status
words map to degraded, the four canonical non-operational labels map to
themselves, and every other non-empty string maps to degraded. -/
theorem claim_C10_normalizeSeverity_total (v : String) :
    (normalizeSeverity v = "operational" ∨ normalizeSeverity v = "minor" ∨
      normalizeSeverity v = "degraded" ∨ normalizeSeverity v = "major" ∨
      normalizeSeverity v = "critical") ∧
    (v = "" → normalizeSeverity v = "operational") ∧
    (v = "resolved" → normalizeSeverity v = "operational") ∧
    ((v = "identified" ∨ v = "investigating" ∨ v = "monitoring") →
      normalizeSeverity v = "degraded") ∧
    ((v = "minor" ∨ v = "degraded" ∨ v = "major" ∨ v = "critical") →
      normalizeSeverity v = v) ∧
    ((v ≠ "" ∧ v ≠ "resolved" ∧ v ≠ "identified" ∧ v ≠ "investigating" ∧
      v ≠ "monitoring" ∧ v ≠ "minor" ∧ v ≠ "degraded" ∧ v ≠ "major" ∧
      v ≠ "critical") → normalizeSeverity v = "degraded") := by
  unfold normalizeSeverity
  split_ifs with h1 h2 h3 h4 h5 h6 h7
  any_goals rcases h6 with rfl | rfl | rfl
  all_goals simp_all

theorem claim_C10_witness :
    normalizeSeverity "" = "operational" ∧
    normalizeSeverity "resolved" = "operational" ∧
    normalizeSeverity "investigating" = "degraded" ∧
    normalizeSeverity "minor" = "minor" ∧
    normalizeSeverity "unexpected-label" = "degraded" := by
  refine ⟨(claim_C10_normalizeSeverity_total "").2.1 rfl,
    (claim_C10_normalizeSeverity_total "resolved").2.2.1 rfl,
    (claim_C10_normalizeSeverity_total "investigating").2.2.2.1 (by simp),
    (claim_C10_normalizeSeverity_total "minor").2.2.2.2.1 (by simp),
    (claim_C10_normalizeSeverity_total "unexpected-label").2.2.2.2.2 (by
      refine ⟨by decide, by decide, by decide, by decide, by decide, by decide,
        by decide, by decide, by decide⟩)⟩

theorem fdiv_mono_pos {a b c : Int} (hc : 0 < c) (h : a ≤ b) : a.fdiv c ≤ b.fdiv c := by
  rw [Int.fdiv_eq_ediv _ (le_of_lt hc), Int.fdiv_eq_ediv _ (le_of_lt hc)]
  exact Int.ediv_le_ediv hc h

theorem bucketFloor_mono {a b : Int} (h : a ≤ b) : bucketFloor a ≤ bucketFloor b :=
  fdiv_mono_pos (by norm_num) h

theorem bucketCeil_mono {a b : Int} (h : a ≤ b) : bucketCeil a ≤ bucketCeil b := by
  unfold bucketCeil
  have hm := fdiv_mono_pos (c := 60000) (by norm_num) (neg_le_neg h)
  omega

theorem clipped_bounds {segments : List Segment} {ws we : Int} {s : Segment}
    (hs : s ∈ clippedSegments segments ws we) :
    ws ≤ s.start ∧ s.stop ≤ we ∧ s.start < s.stop := by
  rw [clippedSegments, mem_sortByLt, List.mem_filterMap] at hs
  obtain ⟨seg, -, hseg⟩ := hs
  simp only at hseg
  by_cases h : min seg.stop we ≤ max seg.start ws
  · rw [if_pos h] at hseg
    exact absurd hseg (by simp)
  · rw [if_neg h] at hseg
    have heq := Option.some.inj hseg
    rw [← heq]
    refine ⟨le_max_right _ _, min_le_right _ _, not_le.mp h⟩

theorem clippedSegments_eq_nil_of_le {segments : List Segment} {ws we : Int}
    (h : we ≤ ws) : clippedSegments segments ws we = [] := by
  apply List.eq_nil_iff_forall_not_mem.mpr
  intro s hs
  have hb := clipped_bounds hs
  omega

theorem mem_foldl_union (l : List Segment) (acc : Finset Int) (b : Int) :
    (b ∈ l.foldl (fun occupied seg => occupied ∪ segmentBuckets seg) acc) ↔
      b ∈ acc ∨ ∃ seg ∈ l, b ∈ segmentBuckets seg := by
  induction l generalizing acc with
  | nil => simp
  | cons s l ih =>
    simp only [List.foldl_cons, ih, Finset.mem_union, List.mem_cons]
    constructor
    · rintro ((h | h) | ⟨seg, hseg, hb⟩)
      · exact Or.inl h
      · exact Or.inr ⟨s, Or.inl rfl, h⟩
      · exact Or.inr ⟨seg, Or.inr hseg, hb⟩
    · rintro (h | ⟨seg, (rfl | hseg), hb⟩)
      · exact Or.inl (Or.inl h)
      · exact Or.inl (Or.inr hb)
      · exact Or.inr ⟨seg, hseg, hb⟩

/-- C4: windowed downtime is the measure (number of occupied minute buckets)
of the union of the clipped segments, with no double counting of overlaps
and with partial overlaps truncated; in particular the two example windows
of the spec count 15 units (not 20) and 5 units (not 10). -/
theorem claim_C4_merged_downtime :
    (∀ (segments : List Segment) (ws we : Int),
      mergedDowntimeBuckets segments ws we =
        ((Finset.Ico (bucketFloor ws) (bucketCeil we)).filter
          (fun b => ∃ seg ∈ clippedSegments segments ws we,
            bucketFloor seg.start ≤ b ∧ b < bucketCeil seg.stop)).card) ∧
    mergedDowntimeBuckets [⟨0, 600000, "major"⟩, ⟨300000, 900000, "minor"⟩] 0 900000 = 15 ∧
    (15 : Nat) ≠ 20 ∧
    mergedDowntimeBuckets [⟨-300000, 300000, "major"⟩] 0 600000 = 5 ∧
    (5 : Nat) ≠ 10 := by
  refine ⟨?_, by decide, by decide, by decide, by decide⟩
  intro segments ws we
  unfold mergedDowntimeBuckets
  by_cases hemp : (clippedSegments segments ws we).isEmpty
  · rw [if_pos hemp]
    have hnil := List.isEmpty_iff.mp hemp
    rw [hnil]
    symm
    rw [Finset.card_eq_zero, Finset.filter_eq_empty_iff]
    intro b _
    simp
  · rw [if_neg hemp]
    congr 1
    apply Finset.ext
    intro b
    rw [mem_foldl_union]
    simp only [Finset.not_mem_empty, false_or, Finset.mem_filter, Finset.mem_Ico]
    constructor
    · rintro ⟨seg, hseg, hb⟩
      have hbounds := clipped_bounds hseg
      have h1 : bucketFloor ws ≤ bucketFloor seg.start := bucketFloor_mono hbounds.1
      have h2 : bucketCeil seg.stop ≤ bucketCeil we := bucketCeil_mono hbounds.2.1
      rw [segmentBuckets, Finset.mem_Ico] at hb
      exact ⟨⟨le_trans h1 hb.1, lt_of_lt_of_le hb.2 h2⟩, seg, hseg, hb.1, hb.2⟩
    · rintro ⟨-, seg, hseg, hb1, hb2⟩
      refine ⟨seg, hseg, ?_⟩
      rw [segmentBuckets, Finset.mem_Ico]
      exact ⟨hb1, hb2⟩

/-- C5: window uptime at minute-bucket granularity, where the duration D is
the bucket-count denominator of the source and T the merged downtime: for
D positive and T at most D the result is 100 times (D minus T) over D, the
result always lies in the clamp range 0 to 100, zero downtime gives 100,
full downtime gives 0, and an empty or non-positive window gives 100. -/
theorem claim_C5_uptime_formula (segments : List Segment) (ws we : Int) :
    (0 < bucketCeil we - bucketFloor ws →
      (mergedDowntimeBuckets segments ws we : Int) ≤ bucketCeil we - bucketFloor ws →
      uptimeForWindow segments ws we =
        100 * (((bucketCeil we - bucketFloor ws : Int) : ℚ) -
            (mergedDowntimeBuckets segments ws we : ℚ)) /
          ((bucketCeil we - bucketFloor ws : Int) : ℚ)) ∧
    (mergedDowntimeBuckets segments ws we = 0 → uptimeForWindow segments ws we = 100) ∧
    (0 ≤ uptimeForWindow segments ws we ∧ uptimeForWindow segments ws we ≤ 100) ∧
    (0 < bucketCeil we - bucketFloor ws →
      (mergedDowntimeBuckets segments ws we : Int) = bucketCeil we - bucketFloor ws →
      uptimeForWindow segments ws we = 0) ∧
    (we ≤ ws → uptimeForWindow segments ws we = 100) := by
  have hzero : mergedDowntimeBuckets segments ws we = 0 →
      uptimeForWindow segments ws we = 100 := by
    intro hT
    simp only [uptimeForWindow]
    by_cases hD : bucketCeil we - bucketFloor ws ≤ 0
    · rw [if_pos hD]
    · rw [if_neg hD]
      have hDq : (0 : ℚ) < ((bucketCeil we - bucketFloor ws : Int) : ℚ) := by
        exact_mod_cast not_le.mp hD
      rw [hT, Nat.cast_zero, sub_zero, div_self (ne_of_gt hDq)]
      norm_num
  refine ⟨?_, hzero, ?_, ?_, ?_⟩
  · intro hD hT
    simp only [uptimeForWindow]
    rw [if_neg (not_le.mpr hD)]
    have hDq : (0 : ℚ) < ((bucketCeil we - bucketFloor ws : Int) : ℚ) := by
      exact_mod_cast hD
    have hTq : (mergedDowntimeBuckets segments ws we : ℚ) ≤
        ((bucketCeil we - bucketFloor ws : Int) : ℚ) := by
      exact_mod_cast hT
    have hT0 : (0 : ℚ) ≤ (mergedDowntimeBuckets segments ws we : ℚ) := by positivity
    set Dq := ((bucketCeil we - bucketFloor ws : Int) : ℚ) with hDdef
    set Tq := (mergedDowntimeBuckets segments ws we : ℚ) with hTdef
    have h100 : (Dq - Tq) / Dq * 100 ≤ 100 := by
      have h1 : (Dq - Tq) / Dq ≤ 1 := by
        rw [div_le_one hDq]
        linarith
      linarith
    have h0 : 0 ≤ (Dq - Tq) / Dq * 100 := by
      have h1 : 0 ≤ (Dq - Tq) / Dq := div_nonneg (by linarith) (le_of_lt hDq)
      linarith
    rw [min_eq_right h100, max_eq_right h0]
    ring
  · simp only [uptimeForWindow]
    by_cases hD : bucketCeil we - bucketFloor ws ≤ 0
    · rw [if_pos hD]
      norm_num
    · rw [if_neg hD]
      constructor
      · exact le_max_left 0 _
      · exact max_le (by norm_num) (min_le_left _ _)
  · intro hD hT
    simp only [uptimeForWindow]
    rw [if_neg (not_le.mpr hD)]
    have hTq : (mergedDowntimeBuckets segments ws we : ℚ) =
        ((bucketCeil we - bucketFloor ws : Int) : ℚ) := by
      exact_mod_cast hT
    rw [hTq, sub_self, zero_div, zero_mul]
    rw [min_eq_right (by norm_num : (0:ℚ) ≤ 100), max_self]
  · intro h
    apply hzero
    simp only [mergedDowntimeBuckets]
    rw [clippedSegments_eq_nil_of_le h]
    rfl

theorem claim_C5_witness :
    uptimeForWindow [⟨0, 600000, "major"⟩] 0 1200000 = 50 ∧
    uptimeForWindow [] 0 1200000 = 100 ∧
    uptimeForWindow [⟨0, 1200000, "major"⟩] 0 1200000 = 0 ∧
    uptimeForWindow [⟨0, 600000, "major"⟩] 900000 300000 = 100 := by
  refine ⟨?_, ?_, ?_, ?_⟩
  · have h := (claim_C5_uptime_formula [⟨0, 600000, "major"⟩] 0 1200000).1
      (by decide) (by decide)
    rw [h]
    have hT : mergedDowntimeBuckets [⟨0, 600000, "major"⟩] 0 1200000 = 10 := by decide
    have hD : bucketCeil 1200000 - bucketFloor 0 = 20 := by decide
    rw [hT, hD]
    norm_num
  · exact (claim_C5_uptime_formula [] 0 1200000).2.1 (by decide)
  · exact (claim_C5_uptime_formula [⟨0, 1200000, "major"⟩] 0 1200000).2.2.2.1
      (by decide) (by decide)
  · exact (claim_C5_uptime_formula [⟨0, 600000, "major"⟩] 900000 300000).2.2.2.2
      (by decide)

/-- C9 (amended): every daily bucket's reported band is the band of its own
computed uptime percentage, through the thresholds the code actually uses:
at least 98 operational, at least 95 degraded, below 95 major; the band
critical is never reported.  The spec's thresholds 99.95, 99.0 and 97.0 are
not the ones in src/app.js uptimeBandForPercent. -/
theorem claim_C9_daily_band (segments : List Segment) (referenceNow : Int)
    (d : RecentDay) (hd : d ∈ recentDays segments referenceNow) :
    d.uptime_band = uptimeBandForPercent d.uptime_percent ∧
    (d.uptime_band = "operational" ↔ 98 ≤ d.uptime_percent) ∧
    (d.uptime_band = "degraded" ↔ 95 ≤ d.uptime_percent ∧ d.uptime_percent < 98) ∧
    (d.uptime_band = "major" ↔ d.uptime_percent < 95) ∧
    d.uptime_band ≠ "critical" := by
  have hband : d.uptime_band = uptimeBandForPercent d.uptime_percent := by
    rw [recentDays] at hd
    simp only [List.mem_map] at hd
    obtain ⟨k, -, hk⟩ := hd
    rw [← hk]
  rw [hband]
  have hc := uptimeBand_cases d.uptime_percent
  exact ⟨rfl, hc.1, hc.2.1, hc.2.2.1, hc.2.2.2⟩

theorem uptimeForWindow_pos_eval (segments : List Segment) (ws we : Int)
    (hD : 0 < bucketCeil we - bucketFloor ws) :
    uptimeForWindow segments ws we =
      max 0 (min 100 ((((bucketCeil we - bucketFloor ws : Int) : ℚ) -
          (mergedDowntimeBuckets segments ws we : ℚ)) /
        ((bucketCeil we - bucketFloor ws : Int) : ℚ) * 100)) := by
  simp only [uptimeForWindow]
  rw [if_neg (not_le.mpr hD)]

theorem claim_C9_witness :
    ∃ d ∈ recentDays [] 0, d.uptime_band = "operational" ∧ 98 ≤ d.uptime_percent := by
  have hu : uptimeForWindow [] (startOfDayUTC 0 + ((29 : Nat) - 29 : Int) * DAY_MS)
      (startOfDayUTC 0 + ((29 : Nat) - 29 : Int) * DAY_MS + DAY_MS) = 100 := by
    rw [uptimeForWindow_pos_eval _ _ _ (by decide)]
    rw [show mergedDowntimeBuckets []
        (startOfDayUTC 0 + ((29 : Nat) - 29 : Int) * DAY_MS)
        (startOfDayUTC 0 + ((29 : Nat) - 29 : Int) * DAY_MS + DAY_MS) = 0 from by decide]
    rw [show bucketCeil (startOfDayUTC 0 + ((29 : Nat) - 29 : Int) * DAY_MS + DAY_MS) -
        bucketFloor (startOfDayUTC 0 + ((29 : Nat) - 29 : Int) * DAY_MS) =
        (1440 : Int) from by decide]
    norm_num
  have hd : (⟨"1970-01-01", 100, "operational"⟩ : RecentDay) ∈ recentDays [] 0 := by
    rw [recentDays]
    refine List.mem_map.mpr ⟨29, by decide, ?_⟩
    show ({ date := isoDateOfMs (startOfDayUTC 0 + ((29 : Nat) - 29 : Int) * DAY_MS)
            uptime_percent := uptimeForWindow []
              (startOfDayUTC 0 + ((29 : Nat) - 29 : Int) * DAY_MS)
              (startOfDayUTC 0 + ((29 : Nat) - 29 : Int) * DAY_MS + DAY_MS)
            uptime_band := uptimeBandForPercent (uptimeForWindow []
              (startOfDayUTC 0 + ((29 : Nat) - 29 : Int) * DAY_MS)
              (startOfDayUTC 0 + ((29 : Nat) - 29 : Int) * DAY_MS + DAY_MS)) } :
          RecentDay) = ⟨"1970-01-01", 100, "operational"⟩
    rw [RecentDay.mk.injEq]
    refine ⟨by decide, hu, ?_⟩
    rw [hu]
    rw [uptimeBandForPercent, if_pos (by norm_num)]
  have hband := claim_C9_daily_band [] 0 ⟨"1970-01-01", 100, "operational"⟩ hd
  exact ⟨⟨"1970-01-01", 100, "operational"⟩, hd,
    hband.2.1.mpr (by norm_num), by norm_num⟩

theorem claim_C9_counterexample :
    ∃ d ∈ recentDays [⟨DAY_MS, DAY_MS + 60000, "major"⟩] (30 * DAY_MS),
      99 ≤ d.uptime_percent ∧ d.uptime_percent < 99.95 ∧
      specSeverityBandForPercent d.uptime_percent = "degraded" ∧
      d.uptime_band = "operational" := by
  have hu : uptimeForWindow [⟨DAY_MS, DAY_MS + 60000, "major"⟩]
      (startOfDayUTC (30 * DAY_MS) + ((0 : Nat) - 29 : Int) * DAY_MS)
      (startOfDayUTC (30 * DAY_MS) + ((0 : Nat) - 29 : Int) * DAY_MS + DAY_MS) =
      7195 / 72 := by
    rw [uptimeForWindow_pos_eval _ _ _ (by decide)]
    rw [show mergedDowntimeBuckets [⟨DAY_MS, DAY_MS + 60000, "major"⟩]
        (startOfDayUTC (30 * DAY_MS) + ((0 : Nat) - 29 : Int) * DAY_MS)
        (startOfDayUTC (30 * DAY_MS) + ((0 : Nat) - 29 : Int) * DAY_MS + DAY_MS) =
        1 from by decide]
    rw [show bucketCeil (startOfDayUTC (30 * DAY_MS) + ((0 : Nat) - 29 : Int) * DAY_MS +
        DAY_MS) - bucketFloor (startOfDayUTC (30 * DAY_MS) +
        ((0 : Nat) - 29 : Int) * DAY_MS) = (1440 : Int) from by decide]
    rw [max_eq_right, min_eq_right] <;> norm_num
  refine ⟨⟨"1970-01-02", 7195 / 72, "operational"⟩, ?_, by norm_num, ?_, ?_, rfl⟩
  · rw [recentDays]
    refine List.mem_map.mpr ⟨0, by decide, ?_⟩
    show ({ date := isoDateOfMs (startOfDayUTC (30 * DAY_MS) +
              ((0 : Nat) - 29 : Int) * DAY_MS)
            uptime_percent := uptimeForWindow [⟨DAY_MS, DAY_MS + 60000, "major"⟩]
              (startOfDayUTC (30 * DAY_MS) + ((0 : Nat) - 29 : Int) * DAY_MS)
              (startOfDayUTC (30 * DAY_MS) + ((0 : Nat) - 29 : Int) * DAY_MS + DAY_MS)
            uptime_band := uptimeBandForPercent
              (uptimeForWindow [⟨DAY_MS, DAY_MS + 60000, "major"⟩]
                (startOfDayUTC (30 * DAY_MS) + ((0 : Nat) - 29 : Int) * DAY_MS)
                (startOfDayUTC (30 * DAY_MS) + ((0 : Nat) - 29 : Int) * DAY_MS +
                  DAY_MS)) } : RecentDay) =
        ⟨"1970-01-02", 7195 / 72, "operational"⟩
    rw [RecentDay.mk.injEq]
    refine ⟨by decide, hu, ?_⟩
    rw [hu]
    rw [uptimeBandForPercent, if_pos (by norm_num)]
  · show (7195 / 72 : ℚ) < 99.95
    norm_num
  · show specSeverityBandForPercent (7195 / 72) = "degraded"
    rw [specSeverityBandForPercent]
    rw [if_neg (by norm_num), if_pos (by norm_num)]

/-! Field behaviour of the incident merge and update append. -/

theorem appendEventUpdate_fields (incident : Incident) (e : AlertEvent) :
    (appendEventUpdate incident e).id = incident.id ∧
    (appendEventUpdate incident e).title = incident.title ∧
    (appendEventUpdate incident e).severity = incident.severity ∧
    (appendEventUpdate incident e).status = incident.status ∧
    (appendEventUpdate incident e).started_at = incident.started_at ∧
    (appendEventUpdate incident e).resolved_at = incident.resolved_at ∧
    (appendEventUpdate incident e).affected_segments = incident.affected_segments ∧
    (appendEventUpdate incident e).summary = incident.summary ∧
    (appendEventUpdate incident e).ingestion_key = incident.ingestion_key := by
  unfold appendEventUpdate
  split_ifs <;> exact ⟨rfl, rfl, rfl, rfl, rfl, rfl, rfl, rfl, rfl⟩

theorem merge_fixed_fields (incident : Incident) (e : AlertEvent) :
    (mergeIncidentFields incident e).id = incident.id ∧
    (mergeIncidentFields incident e).started_at = incident.started_at ∧
    (mergeIncidentFields incident e).ingestion_key = incident.ingestion_key ∧
    (mergeIncidentFields incident e).updates = incident.updates := by
  unfold mergeIncidentFields
  split_ifs <;> exact ⟨rfl, rfl, rfl, rfl⟩

theorem merge_title (incident : Incident) (e : AlertEvent) :
    (mergeIncidentFields incident e).title = orElseStr incident.title e.title := by
  unfold mergeIncidentFields
  split_ifs <;> rfl

theorem merge_segments (incident : Incident) (e : AlertEvent) :
    (mergeIncidentFields incident e).affected_segments =
      dedupFirst (incident.affected_segments ++ e.affectedSegments) := by
  unfold mergeIncidentFields
  split_ifs <;> rfl

theorem merge_summary (incident : Incident) (e : AlertEvent) :
    (mergeIncidentFields incident e).summary =
      orElseStr e.summary incident.summary := by
  unfold mergeIncidentFields
  split_ifs <;> rfl

theorem merge_severity (incident : Incident) (e : AlertEvent) :
    (mergeIncidentFields incident e).severity =
      if severityRank incident.severity < severityRank e.severity then e.severity
      else incident.severity := by
  unfold mergeIncidentFields
  split_ifs <;> rfl

theorem merge_status_resolved (incident : Incident) (e : AlertEvent)
    (h : e.incidentStatus = "resolved") :
    (mergeIncidentFields incident e).status = "resolved" ∧
    (mergeIncidentFields incident e).resolved_at = some e.receivedAt := by
  unfold mergeIncidentFields
  rw [if_pos h]
  exact ⟨rfl, rfl⟩

theorem merge_status_reopen (incident : Incident) (e : AlertEvent)
    (h1 : e.incidentStatus ≠ "resolved") (h2 : incident.status = "resolved") :
    (mergeIncidentFields incident e).status = "investigating" ∧
    (mergeIncidentFields incident e).resolved_at = none := by
  unfold mergeIncidentFields
  rw [if_neg h1, if_pos h2]
  exact ⟨rfl, rfl⟩

theorem merge_status_else (incident : Incident) (e : AlertEvent)
    (h1 : e.incidentStatus ≠ "resolved") (h2 : incident.status ≠ "resolved") :
    (mergeIncidentFields incident e).status =
      orElseStr e.incidentStatus incident.status ∧
    (mergeIncidentFields incident e).resolved_at = incident.resolved_at := by
  unfold mergeIncidentFields
  rw [if_neg h1, if_neg h2]
  exact ⟨rfl, rfl⟩

theorem applyEvent_severity (incident : Incident) (e : AlertEvent) :
    (applyEventToIncident incident e).severity =
      if severityRank incident.severity < severityRank e.severity then e.severity
      else incident.severity := by
  show (appendEventUpdate (mergeIncidentFields incident e) e).severity = _
  rw [(appendEventUpdate_fields _ _).2.2.1, merge_severity]

theorem applyEvent_id (incident : Incident) (e : AlertEvent) :
    (applyEventToIncident incident e).id = incident.id := by
  show (appendEventUpdate (mergeIncidentFields incident e) e).id = _
  rw [(appendEventUpdate_fields _ _).1, (merge_fixed_fields _ _).1]

theorem applyEvent_started_at (incident : Incident) (e : AlertEvent) :
    (applyEventToIncident incident e).started_at = incident.started_at := by
  show (appendEventUpdate (mergeIncidentFields incident e) e).started_at = _
  rw [(appendEventUpdate_fields _ _).2.2.2.2.1, (merge_fixed_fields _ _).2.1]

theorem applyEvent_ingestion_key (incident : Incident) (e : AlertEvent) :
    (applyEventToIncident incident e).ingestion_key = incident.ingestion_key := by
  show (appendEventUpdate (mergeIncidentFields incident e) e).ingestion_key = _
  rw [(appendEventUpdate_fields _ _).2.2.2.2.2.2.2.2, (merge_fixed_fields _ _).2.2.1]

theorem applyEvent_status_resolved (incident : Incident) (e : AlertEvent)
    (h : e.incidentStatus = "resolved") :
    (applyEventToIncident incident e).status = "resolved" ∧
    (applyEventToIncident incident e).resolved_at = some e.receivedAt := by
  have ha := appendEventUpdate_fields (mergeIncidentFields incident e) e
  have hm := merge_status_resolved incident e h
  exact ⟨ha.2.2.2.1.trans hm.1, ha.2.2.2.2.2.1.trans hm.2⟩

theorem applyEvent_status_reopen (incident : Incident) (e : AlertEvent)
    (h1 : e.incidentStatus ≠ "resolved") (h2 : incident.status = "resolved") :
    (applyEventToIncident incident e).status = "investigating" ∧
    (applyEventToIncident incident e).resolved_at = none := by
  have ha := appendEventUpdate_fields (mergeIncidentFields incident e) e
  have hm := merge_status_reopen incident e h1 h2
  exact ⟨ha.2.2.2.1.trans hm.1, ha.2.2.2.2.2.1.trans hm.2⟩

theorem applyEvent_status_else (incident : Incident) (e : AlertEvent)
    (h1 : e.incidentStatus ≠ "resolved") (h2 : incident.status ≠ "resolved") :
    (applyEventToIncident incident e).status =
      orElseStr e.incidentStatus incident.status ∧
    (applyEventToIncident incident e).resolved_at = incident.resolved_at := by
  have ha := appendEventUpdate_fields (mergeIncidentFields incident e) e
  have hm := merge_status_else incident e h1 h2
  exact ⟨ha.2.2.2.1.trans hm.1, ha.2.2.2.2.2.1.trans hm.2⟩

/-- C6: an update to a matched incident raises its severity to the event's
exactly when the event's severity ranks strictly higher in the rank order
operational 0, minor 1, degraded 1, major 2, critical 3, and otherwise
leaves it unchanged; the incident's severity rank never decreases. -/
theorem claim_C6_severity_monotone (incident : Incident) (e : AlertEvent) :
    (severityRank incident.severity < severityRank e.severity →
      (applyEventToIncident incident e).severity = e.severity) ∧
    (¬ severityRank incident.severity < severityRank e.severity →
      (applyEventToIncident incident e).severity = incident.severity) ∧
    severityRank incident.severity ≤
      severityRank (applyEventToIncident incident e).severity ∧
    (severityRank "operational" = 0 ∧ severityRank "minor" = 1 ∧
      severityRank "degraded" = 1 ∧ severityRank "major" = 2 ∧
      severityRank "critical" = 3) := by
  have h := applyEvent_severity incident e
  refine ⟨?_, ?_, ?_, by decide, by decide, by decide, by decide, by decide⟩
  · intro hlt
    rw [h, if_pos hlt]
  · intro hge
    rw [h, if_neg hge]
  · rw [h]
    by_cases hlt : severityRank incident.severity < severityRank e.severity
    · rw [if_pos hlt]
      exact le_of_lt hlt
    · rw [if_neg hlt]

theorem claim_C6_witness :
    (applyEventToIncident incInvestigating evInvestigating).severity = "major" ∧
    (applyEventToIncident incInvestigating evResolving).severity = "minor" := by
  exact ⟨(claim_C6_severity_monotone incInvestigating evInvestigating).1 (by decide),
    (claim_C6_severity_monotone incInvestigating evResolving).2.1 (by decide)⟩

/-- C7 (amended): the update append is deduplicated by source message id
and permutation-only (no update removed or modified); whenever a new update
is appended the updates come out sorted by timestamp ascending, and
sortedness is preserved in every case; but an incident whose stored updates
are already out of order keeps them out of order when the event is a
duplicate, since the source only re-sorts after an append. -/
theorem claim_C7_updates (incident : Incident) (e : AlertEvent) :
    ((∃ u ∈ incident.updates, u.source_message_id = e.messageId) →
      (appendEventUpdate incident e).updates = incident.updates) ∧
    ((∀ u ∈ incident.updates, u.source_message_id ≠ e.messageId) →
      (appendEventUpdate incident e).updates.Perm
          (incident.updates ++
            [⟨e.receivedAt, e.updateState, e.updateMessage, e.messageId⟩]) ∧
        (appendEventUpdate incident e).updates.Pairwise
          (fun u v => u.timestamp ≤ v.timestamp)) ∧
    (incident.updates.Pairwise (fun u v => u.timestamp ≤ v.timestamp) →
      (appendEventUpdate incident e).updates.Pairwise
        (fun u v => u.timestamp ≤ v.timestamp)) := by
  have hsort : ∀ (l : List Update),
      (sortByLt (fun a b => a.timestamp < b.timestamp) l).Pairwise
        (fun u v => u.timestamp ≤ v.timestamp) := by
    intro l
    refine sortByLt_pairwise _ ?_ ?_ ?_ l
    · intro a b c hab hbc
      exact le_trans hab hbc
    · intro a b hab
      exact le_of_lt (of_decide_eq_true hab)
    · intro a b hab
      exact le_of_not_lt (of_decide_eq_false hab)
  refine ⟨?_, ?_, ?_⟩
  · intro hex
    have hcond : incident.updates.any
        (fun u => u.source_message_id == e.messageId) = true := by
      rw [List.any_eq_true]
      obtain ⟨u, hu, hid⟩ := hex
      exact ⟨u, hu, by simpa using hid⟩
    unfold appendEventUpdate
    rw [if_pos hcond]
  · intro hall
    have hcond : incident.updates.any
        (fun u => u.source_message_id == e.messageId) = false := by
      rw [List.any_eq_false]
      intro u hu
      simpa using hall u hu
    unfold appendEventUpdate
    rw [if_neg (by rw [hcond]; simp)]
    exact ⟨sortByLt_perm _ _, hsort _⟩
  · intro hsorted
    unfold appendEventUpdate
    split_ifs with h
    · exact hsorted
    · exact hsort _

set_option maxHeartbeats 4000000 in
theorem claim_C7_witness :
    (appendEventUpdate incUnsorted evResolving).updates = incUnsorted.updates ∧
    (appendEventUpdate incInvestigating evResolving).updates.Perm
      (incInvestigating.updates ++ [⟨1000, "operational", "done", "m-9"⟩]) ∧
    (appendEventUpdate incInvestigating evResolving).updates.Pairwise
      (fun u v => u.timestamp ≤ v.timestamp) := by
  have h1 := (claim_C7_updates incUnsorted evResolving).1 (by decide)
  have h2 := (claim_C7_updates incInvestigating evResolving).2.1 (by decide)
  exact ⟨h1, h2.1, h2.2⟩

set_option maxHeartbeats 4000000 in
theorem claim_C7_counterexample :
    (∃ u ∈ incUnsorted.updates, u.source_message_id = evResolving.messageId) ∧
    ¬ (appendEventUpdate incUnsorted evResolving).updates.Pairwise
        (fun u v => u.timestamp ≤ v.timestamp) := by decide

/-! Structure of findMatchingIncident results. -/

theorem candidatesOf_get {shard : Shard} {e : AlertEvent} {p : Nat × Incident}
    (hp : p ∈ candidatesOf shard e) :
    shard.items.get? p.1 = some p.2 ∧ isCandidate e p.2 = true := by
  unfold candidatesOf at hp
  rw [List.mem_filter] at hp
  have hm := mem_enumItems 0 shard.items p hp.1
  refine ⟨?_, hp.2⟩
  simpa using hm.2

theorem findMatchingIncident_mem {shard : Shard} {e : AlertEvent} {p : Nat × Incident}
    (h : findMatchingIncident shard e = some p) : p ∈ candidatesOf shard e := by
  unfold findMatchingIncident at h
  by_cases hemp : (candidatesOf shard e).isEmpty
  · rw [if_pos hemp] at h
    exact absurd h (by simp)
  · rw [if_neg hemp] at h
    unfold chooseCandidate at h
    rw [← mem_sortByLt (fun a b => b.2.started_at < a.2.started_at) (candidatesOf shard e)]
    cases hf : (sortByLt (fun a b => b.2.started_at < a.2.started_at)
        (candidatesOf shard e)).find? (fun q => !(q.2.status == "resolved")) with
    | some q =>
      rw [hf] at h
      obtain rfl : q = p := by simpa using h
      exact List.mem_of_find?_eq_some hf
    | none =>
      rw [hf] at h
      simp only at h
      exact List.mem_of_mem_head? (by rw [Option.mem_def, h])

/-- C3: when an incident is matched, resolution sets its status to resolved
and stamps resolved_at with the event timestamp regardless of prior state;
a non-resolving event on a resolved incident reopens that same incident
(status investigating, resolved_at cleared); no incident is created or
removed and every other incident is untouched. -/
theorem claim_C3_resolution_reopen (shard : Shard) (e : AlertEvent) (i : Nat)
    (incident : Incident)
    (h : findMatchingIncident shard e = some (i, incident)) :
    (upsertIncidentInShard shard e).items.length = shard.items.length ∧
    (upsertIncidentInShard shard e).items[i]? =
      some (applyEventToIncident incident e) ∧
    (applyEventToIncident incident e).id = incident.id ∧
    (e.incidentStatus = "resolved" →
      (applyEventToIncident incident e).status = "resolved" ∧
      (applyEventToIncident incident e).resolved_at = some e.receivedAt) ∧
    (e.incidentStatus ≠ "resolved" → incident.status = "resolved" →
      (applyEventToIncident incident e).status = "investigating" ∧
      (applyEventToIncident incident e).resolved_at = none) ∧
    (∀ j, j ≠ i → (upsertIncidentInShard shard e).items[j]? = shard.items[j]?) := by
  have hmem := findMatchingIncident_mem h
  have hget := (candidatesOf_get hmem).1
  have hlt : i < shard.items.length := by
    rcases List.get?_eq_some.mp hget with ⟨hl, -⟩
    exact hl
  have hupsert : upsertIncidentInShard shard e =
      { shard with items := shard.items.set i (applyEventToIncident incident e) } := by
    unfold upsertIncidentInShard
    rw [h]
  refine ⟨?_, ?_, applyEvent_id incident e,
    applyEvent_status_resolved incident e,
    applyEvent_status_reopen incident e, ?_⟩
  · rw [hupsert]
    exact List.length_set shard.items i _
  · rw [hupsert]
    show (shard.items.set i (applyEventToIncident incident e))[i]? = _
    rw [List.getElem?_set]
    rw [if_pos rfl, if_pos hlt]
  · intro j hj
    rw [hupsert]
    show (shard.items.set i (applyEventToIncident incident e))[j]? = _
    rw [List.getElem?_set, if_neg (fun hc => hj hc.symm)]

set_option maxHeartbeats 4000000 in
theorem claim_C3_witness :
    (upsertIncidentInShard ⟨"1970-01", [incInvestigating]⟩ evResolving).items.length = 1 ∧
    ((upsertIncidentInShard ⟨"1970-01", [incInvestigating]⟩ evResolving).items[0]?.map
        (fun incident => (incident.id, incident.status, incident.resolved_at))) =
      some ("inc-a", "resolved", some 1000) := by
  have hfind : findMatchingIncident ⟨"1970-01", [incInvestigating]⟩ evResolving =
      some (0, incInvestigating) := by decide
  have h := claim_C3_resolution_reopen ⟨"1970-01", [incInvestigating]⟩ evResolving 0
    incInvestigating hfind
  have hres := h.2.2.2.1 (by decide)
  refine ⟨h.1, ?_⟩
  rw [h.2.1]
  rw [Option.map_some']
  rw [h.2.2.1, hres.1, hres.2]
  rfl

theorem slugify_ne_empty (t : String) : slugify t ≠ "" := by
  simp only [slugify]
  split_ifs with h
  · decide
  · intro hcontra
    have hdata := congrArg String.data hcontra
    simp only [String.data] at hdata
    exact h (by rw [List.isEmpty_iff]; exact hdata)

theorem buildParsedEvent_subjectKey (now : Int) (m : InboundMessage) :
    (buildParsedEvent now m).subjectKey =
      slugify (orElseStr (normalizeSubject (orElseStr m.subject "(No subject)"))
        (orElseStr m.subject "(No subject)")) := by
  simp only [buildParsedEvent]

theorem storeIncidents_applyEventToRepo_nil (e : AlertEvent) :
    storeIncidents (applyEventToRepo [] e) =
      [appendEventUpdate (freshIncident [] e) e] ++ [] := rfl

/-- C8 (amended): no inbound message is rejected before reconciliation: the
event builder is total, a missing receivedAt is silently defaulted to the
ingestion wall-clock time, the subject key is never empty (an empty slug
falls back to email-alert), and reconciling the built event against the
empty store always mutates it (a new incident is created). -/
theorem claim_C8_no_rejection (now : Int) (message : InboundMessage) :
    (buildParsedEvent now message).receivedAt = message.receivedAt.getD now ∧
    (buildParsedEvent now message).subjectKey ≠ "" ∧
    storeIncidents (applyEventToRepo [] (buildParsedEvent now message)) ≠ [] := by
  refine ⟨rfl, ?_, ?_⟩
  · rw [buildParsedEvent_subjectKey]
    exact slugify_ne_empty _
  · rw [storeIncidents_applyEventToRepo_nil]
    simp

set_option maxHeartbeats 4000000 in
theorem claim_C8_counterexample :
    msgNoDate.receivedAt = none ∧
    (buildParsedEvent 0 msgNoDate).receivedAt = 0 ∧
    (buildParsedEvent 0 msgNoDate).subjectKey = "email-alert" ∧
    storeIncidents (applyEventToRepo [] (buildParsedEvent 0 msgNoDate)) ≠ [] := by
  decide

/-! Distinctness of ingestion keys inside a shard, the invariant behind the
per-shard at-most-one-open property. -/

theorem findMatchingIncident_none {shard : Shard} {e : AlertEvent}
    (h : findMatchingIncident shard e = none) : candidatesOf shard e = [] := by
  unfold findMatchingIncident at h
  by_cases hemp : (candidatesOf shard e).isEmpty
  · exact List.isEmpty_iff.mp hemp
  · rw [if_neg hemp] at h
    exfalso
    unfold chooseCandidate at h
    cases hf : (sortByLt (fun a b => b.2.started_at < a.2.started_at)
        (candidatesOf shard e)).find? (fun q => !(q.2.status == "resolved")) with
    | some q =>
      rw [hf] at h
      simp at h
    | none =>
      rw [hf] at h
      simp only at h
      have hnil := List.head?_eq_none_iff.mp h
      have hperm := sortByLt_perm (fun a b => b.2.started_at < a.2.started_at)
        (candidatesOf shard e)
      rw [hnil] at hperm
      exact hemp (by rw [List.isEmpty_iff]; exact hperm.symm.eq_nil)

theorem not_candidate_of_none {shard : Shard} {e : AlertEvent}
    (h : candidatesOf shard e = []) :
    ∀ incident ∈ shard.items, incident.ingestion_key ≠ e.subjectKey := by
  intro incident hmem heq
  obtain ⟨j, hj⟩ := mem_enumItems_of_mem shard.items incident hmem 0
  have hc : (j, incident) ∈ candidatesOf shard e := by
    unfold candidatesOf
    rw [List.mem_filter]
    refine ⟨hj, ?_⟩
    simp [isCandidate, heq]
  rw [h] at hc
  simp at hc

theorem upsert_keys_nodup (shard : Shard) (e : AlertEvent)
    (h : (shard.items.map (fun i => i.ingestion_key)).Nodup) :
    ((upsertIncidentInShard shard e).items.map (fun i => i.ingestion_key)).Nodup := by
  cases hf : findMatchingIncident shard e with
  | some p =>
    obtain ⟨i, incident⟩ := p
    have hget := (candidatesOf_get (findMatchingIncident_mem hf)).1
    unfold upsertIncidentInShard
    rw [hf]
    simp only
    rw [List.map_set, applyEvent_ingestion_key]
    have hgm : (shard.items.map (fun i => i.ingestion_key)).get? i =
        some incident.ingestion_key := by
      rw [List.get?_map, hget]
      rfl
    rw [set_get?_self _ _ _ hgm]
    exact h
  | none =>
    have hnone := findMatchingIncident_none hf
    unfold upsertIncidentInShard
    rw [hf]
    simp only
    rw [List.map_append]
    rw [List.nodup_append]
    refine ⟨h, by simp, ?_⟩
    intro k hk hk2
    simp only [List.map_cons, List.map_nil, List.mem_singleton] at hk2
    have hkey : (appendEventUpdate
        (freshIncident (shard.items.map (fun i => i.id)) e) e).ingestion_key =
        e.subjectKey := by
      rw [(appendEventUpdate_fields _ _).2.2.2.2.2.2.2.2]
      rfl
    rw [hkey] at hk2
    obtain ⟨incident, hmem, hkeq⟩ := List.mem_map.mp hk
    exact not_candidate_of_none hnone incident hmem (hkeq.trans hk2)

theorem saveShardSort_keys_nodup (s : Shard)
    (h : (s.items.map (fun i => i.ingestion_key)).Nodup) :
    ((saveShardSort s).items.map (fun i => i.ingestion_key)).Nodup := by
  unfold saveShardSort
  have hperm := (sortByLt_perm (fun a b => b.started_at < a.started_at) s.items).map
    (fun i => i.ingestion_key)
  exact hperm.nodup_iff.mpr h

theorem applyEventToRepo_nil_eq (e : AlertEvent) :
    applyEventToRepo [] e =
      [(periodOfMs e.receivedAt,
        saveShardSort (upsertIncidentInShard ⟨periodOfMs e.receivedAt, []⟩ e))] := rfl

theorem applyEventToRepo_single_eq (e : AlertEvent) (q : String) (s : Shard)
    (hq : periodOfMs e.receivedAt = q) :
    applyEventToRepo [(q, s)] e =
      [(q, saveShardSort (upsertIncidentInShard { s with period := q } e))] := by
  simp only [applyEventToRepo, hq]
  simp [lookupShard, setShard]

theorem countP_key_eq_count_map (l : List Incident) (k : String) :
    l.countP (fun i => i.ingestion_key == k) =
      (l.map (fun i => i.ingestion_key)).count k := by
  rw [List.count_eq_countP, List.countP_map]
  rfl

/-- C2 (amended): for every finite sequence of well-formed alert events
that all fall in the same calendar month (UTC period) applied one at a
time through applyEventToRepo from the empty store, and every subject key,
at most one incident in the whole store with that ingestion key has status
investigating; indeed the single monthly shard then holds at most one
incident with that key at all.  Across months the code routes events to
distinct shards and the store-wide property fails. -/
theorem claim_C2_at_most_one_open (events : List AlertEvent) (p k : String)
    (_hwf : ∀ e ∈ events, WellFormedEvent e)
    (hp : ∀ e ∈ events, periodOfMs e.receivedAt = p) :
    (storeIncidents (events.foldl applyEventToRepo [])).countP
      (fun i => i.ingestion_key == k && i.status == "investigating") ≤ 1 := by
  clear _hwf
  have hfold : ∀ (evs : List AlertEvent) (repo : Repo),
      (∀ e ∈ evs, periodOfMs e.receivedAt = p) →
      (repo = [] ∨ ∃ s : Shard, repo = [(p, s)] ∧
        (s.items.map (fun i => i.ingestion_key)).Nodup) →
      (evs.foldl applyEventToRepo repo = [] ∨
        ∃ s : Shard, evs.foldl applyEventToRepo repo = [(p, s)] ∧
          (s.items.map (fun i => i.ingestion_key)).Nodup) := by
    intro evs
    induction evs with
    | nil =>
      intro repo _ h0
      simpa using h0
    | cons e evs ih =>
      intro repo hevs h0
      simp only [List.foldl_cons]
      apply ih
      · intro e' he'
        exact hevs e' (by simp [he'])
      · have hpe : periodOfMs e.receivedAt = p := hevs e (by simp)
        rcases h0 with rfl | ⟨s, rfl, hnd⟩
        · right
          refine ⟨saveShardSort (upsertIncidentInShard ⟨p, []⟩ e), ?_, ?_⟩
          · rw [applyEventToRepo_nil_eq, hpe]
          · apply saveShardSort_keys_nodup
            apply upsert_keys_nodup
            simp
        · right
          refine ⟨saveShardSort (upsertIncidentInShard { s with period := p } e), ?_, ?_⟩
          · exact applyEventToRepo_single_eq e p s hpe
          · apply saveShardSort_keys_nodup
            apply upsert_keys_nodup
            exact hnd
  rcases hfold events [] hp (Or.inl rfl) with hnil | ⟨s, heq, hnd⟩
  · rw [hnil]
    simp [storeIncidents]
  · rw [heq]
    have hstore : storeIncidents [(p, s)] = s.items := by
      simp [storeIncidents]
    rw [hstore]
    have h1 : s.items.countP
        (fun i => i.ingestion_key == k && i.status == "investigating") ≤
        s.items.countP (fun i => i.ingestion_key == k) := by
      apply List.countP_mono_left
      intro x _ hx
      simp only [Bool.and_eq_true] at hx
      exact hx.1
    have h2 := countP_key_eq_count_map s.items k
    have h3 : (s.items.map (fun i => i.ingestion_key)).count k ≤ 1 :=
      List.nodup_iff_count_le_one.mp hnd k
    omega

theorem claim_C2_witness :
    (storeIncidents (List.foldl applyEventToRepo [] [evJanuary])).countP
      (fun i => i.ingestion_key == "alpha" && i.status == "investigating") ≤ 1 :=
  claim_C2_at_most_one_open [evJanuary] "1970-01" "alpha" (by decide) (by decide)

set_option maxHeartbeats 4000000 in
theorem claim_C2_counterexample :
    WellFormedEvent evJanuary ∧ WellFormedEvent evFebruary ∧
    (storeIncidents (List.foldl applyEventToRepo [] [evJanuary, evFebruary])).countP
      (fun i => i.ingestion_key == "alpha" && i.status == "investigating") = 2 := by
  decide

/-! Fixpoint behaviour of a second application of the same event to the
same incident. -/

theorem orElseStr_self (a : String) : orElseStr a a = a := by
  unfold orElseStr
  split_ifs <;> rfl

theorem orElseStr_idem (a b : String) : orElseStr (orElseStr a b) b = orElseStr a b := by
  unfold orElseStr
  split_ifs <;> simp_all

theorem orElseStr_left_idem (a b : String) :
    orElseStr a (orElseStr a b) = orElseStr a b := by
  unfold orElseStr
  split_ifs <;> simp_all

theorem orElseStr_of_ne_empty (a b : String) (h : a ≠ "") : orElseStr a b = a := by
  unfold orElseStr
  rw [if_neg h]

theorem Incident_eq_of_fields {a b : Incident}
    (h1 : a.id = b.id) (h2 : a.title = b.title) (h3 : a.severity = b.severity)
    (h4 : a.status = b.status) (h5 : a.started_at = b.started_at)
    (h6 : a.resolved_at = b.resolved_at)
    (h7 : a.affected_segments = b.affected_segments)
    (h8 : a.summary = b.summary) (h9 : a.updates = b.updates)
    (h10 : a.ingestion_key = b.ingestion_key) : a = b := by
  cases a
  cases b
  simp_all

theorem Shard_eq_of_fields {a b : Shard} (h1 : a.period = b.period)
    (h2 : a.items = b.items) : a = b := by
  cases a
  cases b
  simp_all

theorem applyEvent_title (incident : Incident) (e : AlertEvent) :
    (applyEventToIncident incident e).title = orElseStr incident.title e.title := by
  show (appendEventUpdate (mergeIncidentFields incident e) e).title = _
  rw [(appendEventUpdate_fields _ _).2.1, merge_title]

theorem applyEvent_segments (incident : Incident) (e : AlertEvent) :
    (applyEventToIncident incident e).affected_segments =
      dedupFirst (incident.affected_segments ++ e.affectedSegments) := by
  show (appendEventUpdate (mergeIncidentFields incident e) e).affected_segments = _
  rw [(appendEventUpdate_fields _ _).2.2.2.2.2.2.1, merge_segments]

theorem applyEvent_summary (incident : Incident) (e : AlertEvent) :
    (applyEventToIncident incident e).summary =
      orElseStr e.summary incident.summary := by
  show (appendEventUpdate (mergeIncidentFields incident e) e).summary = _
  rw [(appendEventUpdate_fields _ _).2.2.2.2.2.2.2.1, merge_summary]

theorem appendEventUpdate_any (incident : Incident) (e : AlertEvent) :
    (appendEventUpdate incident e).updates.any
      (fun u => u.source_message_id == e.messageId) = true := by
  unfold appendEventUpdate
  split_ifs with h
  · exact h
  · simp only
    rw [List.any_eq_true]
    refine ⟨⟨e.receivedAt, e.updateState, e.updateMessage, e.messageId⟩, ?_, by simp⟩
    rw [mem_sortByLt]
    simp

theorem applyEvent_updates_any (incident : Incident) (e : AlertEvent) :
    (applyEventToIncident incident e).updates.any
      (fun u => u.source_message_id == e.messageId) = true :=
  appendEventUpdate_any (mergeIncidentFields incident e) e

theorem applyEvent_updates_of_dup (incident : Incident) (e : AlertEvent)
    (h : incident.updates.any (fun u => u.source_message_id == e.messageId) = true) :
    (applyEventToIncident incident e).updates = incident.updates := by
  show (appendEventUpdate (mergeIncidentFields incident e) e).updates = _
  have hm := (merge_fixed_fields incident e).2.2.2
  unfold appendEventUpdate
  rw [hm, if_pos h]
  exact hm

theorem applyEvent_fix_of (inc1 : Incident) (e : AlertEvent)
    (ht : orElseStr inc1.title e.title = inc1.title)
    (hseg : dedupFirst (inc1.affected_segments ++ e.affectedSegments) =
      inc1.affected_segments)
    (hsum : orElseStr e.summary inc1.summary = inc1.summary)
    (hsev : ¬ severityRank inc1.severity < severityRank e.severity)
    (hstat : if e.incidentStatus = "resolved"
      then inc1.status = "resolved" ∧ inc1.resolved_at = some e.receivedAt
      else inc1.status ≠ "resolved" ∧
        orElseStr e.incidentStatus inc1.status = inc1.status)
    (hupd : inc1.updates.any (fun u => u.source_message_id == e.messageId) = true) :
    applyEventToIncident inc1 e = inc1 := by
  apply Incident_eq_of_fields
  · exact applyEvent_id inc1 e
  · rw [applyEvent_title, ht]
  · rw [applyEvent_severity, if_neg hsev]
  · by_cases hr : e.incidentStatus = "resolved"
    · rw [if_pos hr] at hstat
      rw [(applyEvent_status_resolved inc1 e hr).1, hstat.1]
    · rw [if_neg hr] at hstat
      rw [(applyEvent_status_else inc1 e hr hstat.1).1, hstat.2]
  · exact applyEvent_started_at inc1 e
  · by_cases hr : e.incidentStatus = "resolved"
    · rw [if_pos hr] at hstat
      rw [(applyEvent_status_resolved inc1 e hr).2, hstat.2]
    · rw [if_neg hr] at hstat
      rw [(applyEvent_status_else inc1 e hr hstat.1).2]
  · rw [applyEvent_segments, hseg]
  · rw [applyEvent_summary, hsum]
  · exact applyEvent_updates_of_dup inc1 e hupd
  · exact applyEvent_ingestion_key inc1 e

theorem applyEvent_status_investigating (incident : Incident) (e : AlertEvent)
    (hSi : e.incidentStatus = "investigating") :
    (applyEventToIncident incident e).status = "investigating" := by
  have hr : e.incidentStatus ≠ "resolved" := by rw [hSi]; decide
  by_cases hres : incident.status = "resolved"
  · exact (applyEvent_status_reopen incident e hr hres).1
  · rw [(applyEvent_status_else incident e hr hres).1, hSi]
    exact orElseStr_of_ne_empty _ _ (by decide)

theorem applyEventToIncident_fix (incident : Incident) (e : AlertEvent)
    (hS : e.incidentStatus = "investigating" ∨ e.incidentStatus = "resolved") :
    applyEventToIncident (applyEventToIncident incident e) e =
      applyEventToIncident incident e := by
  apply applyEvent_fix_of
  · rw [applyEvent_title]
    exact orElseStr_idem _ _
  · rw [applyEvent_segments]
    apply dedupFirst_append_covered
    · exact nodup_dedupFirst _
    · intro x hx
      rw [mem_dedupFirst]
      exact List.mem_append_right _ hx
  · rw [applyEvent_summary]
    exact orElseStr_left_idem _ _
  · rw [applyEvent_severity]
    by_cases hlt : severityRank incident.severity < severityRank e.severity
    · rw [if_pos hlt]
      exact lt_irrefl _
    · rw [if_neg hlt]
      exact hlt
  · by_cases hr : e.incidentStatus = "resolved"
    · rw [if_pos hr]
      exact applyEvent_status_resolved incident e hr
    · rw [if_neg hr]
      have hSi : e.incidentStatus = "investigating" := by
        rcases hS with hS | hS
        · exact hS
        · exact absurd hS hr
      have hst := applyEvent_status_investigating incident e hSi
      refine ⟨by rw [hst]; decide, ?_⟩
      rw [hst, hSi]
      rfl
  · exact applyEvent_updates_any incident e

theorem applyEvent_fresh_fix (ids : List String) (e : AlertEvent)
    (hN : e.affectedSegments.Nodup)
    (hS : e.incidentStatus = "investigating" ∨ e.incidentStatus = "resolved") :
    applyEventToIncident (appendEventUpdate (freshIncident ids e) e) e =
      appendEventUpdate (freshIncident ids e) e := by
  have hfields := appendEventUpdate_fields (freshIncident ids e) e
  apply applyEvent_fix_of
  · rw [hfields.2.1]
    show orElseStr e.title e.title = e.title
    exact orElseStr_self _
  · rw [hfields.2.2.2.2.2.2.1]
    show dedupFirst (e.affectedSegments ++ e.affectedSegments) = e.affectedSegments
    exact dedupFirst_append_covered _ _ hN (fun x hx => hx)
  · rw [hfields.2.2.2.2.2.2.2.1]
    show orElseStr e.summary e.summary = e.summary
    exact orElseStr_self _
  · rw [hfields.2.2.1]
    show ¬ severityRank e.severity < severityRank e.severity
    exact lt_irrefl _
  · rw [hfields.2.2.2.1, hfields.2.2.2.2.2.1]
    by_cases hr : e.incidentStatus = "resolved"
    · rw [if_pos hr]
      show e.incidentStatus = "resolved" ∧
        (if e.incidentStatus = "resolved" then some e.receivedAt else none) =
          some e.receivedAt
      rw [if_pos hr]
      exact ⟨hr, rfl⟩
    · rw [if_neg hr]
      have hSi : e.incidentStatus = "investigating" := by
        rcases hS with hS | hS
        · exact hS
        · exact absurd hS hr
      show e.incidentStatus ≠ "resolved" ∧
        orElseStr e.incidentStatus e.incidentStatus = e.incidentStatus
      exact ⟨hr, orElseStr_self _⟩
  · exact appendEventUpdate_any _ e

/-! Tracking the candidate list through an in-place incident update. -/

theorem candidatesOf_set (shard : Shard) (e : AlertEvent) (i : Nat)
    (incident inc1 : Incident)
    (hget : shard.items.get? i = some incident)
    (hcand : isCandidate e incident = true) (hcand1 : isCandidate e inc1 = true) :
    candidatesOf { shard with items := shard.items.set i inc1 } e =
      (candidatesOf shard e).map
        (fun q => if q = (i, incident) then (i, inc1) else q) := by
  unfold candidatesOf
  simp only
  rw [enumItems_set]
  simp only [Nat.zero_add]
  rw [List.filter_map]
  have hfc : (enumItems 0 shard.items).filter
      ((fun p => isCandidate e p.2) ∘ (fun p => if p.1 = i then (i, inc1) else p)) =
      (enumItems 0 shard.items).filter (fun p => isCandidate e p.2) := by
    apply List.filter_congr
    intro p hp
    by_cases hpi : p.1 = i
    · have hm := (mem_enumItems 0 shard.items p hp).2
      simp only [Nat.sub_zero] at hm
      rw [hpi] at hm
      rw [hget] at hm
      have hpinc : p.2 = incident := (Option.some.inj hm).symm
      simp only [Function.comp_apply, if_pos hpi]
      rw [hcand1, hpinc, hcand]
    · simp only [Function.comp_apply, if_neg hpi]
  rw [hfc]
  apply List.map_congr_left
  intro q hq
  rw [List.mem_filter] at hq
  have hm := (mem_enumItems 0 shard.items q hq.1).2
  simp only [Nat.sub_zero] at hm
  by_cases hqi : q.1 = i
  · have hqinc : q.2 = incident := by
      rw [hqi, hget] at hm
      exact (Option.some.inj hm).symm
    have hqe : q = (i, incident) := by
      cases q
      simp_all
    rw [if_pos hqi, if_pos hqe]
  · have hqe : q ≠ (i, incident) := by
      intro hc
      rw [hc] at hqi
      exact hqi rfl
    rw [if_neg hqi, if_neg hqe]

theorem sortCand_map_subst (c : List (Nat × Incident)) (i : Nat)
    (incident inc1 : Incident)
    (hstart : inc1.started_at = incident.started_at) :
    sortByLt (fun a b => b.2.started_at < a.2.started_at)
        (c.map (fun q => if q = (i, incident) then (i, inc1) else q)) =
      (sortByLt (fun a b => b.2.started_at < a.2.started_at) c).map
        (fun q => if q = (i, incident) then (i, inc1) else q) := by
  apply sortByLt_map
  intro x y
  have hkey : ∀ z : Nat × Incident,
      (if z = (i, incident) then (i, inc1) else z).2.started_at = z.2.started_at := by
    intro z
    by_cases hz : z = (i, incident)
    · rw [if_pos hz, hz]
      exact hstart
    · rw [if_neg hz]
  rw [hkey x, hkey y]

theorem find?_map_of {α} (p : α → Bool) (f : α → α) {l : List α} {a : α}
    (h : l.find? p = some a) (hp : p (f a) = true)
    (hother : ∀ x, p x = false → f x = x) :
    (l.map f).find? p = some (f a) := by
  induction l with
  | nil => simp at h
  | cons b l ih =>
    cases hb : p b with
    | true =>
      rw [List.find?_cons_of_pos _ hb] at h
      obtain rfl := Option.some.inj h
      rw [List.map_cons, List.find?_cons_of_pos _ hp]
    | false =>
      rw [List.find?_cons_of_neg _ (by simp [hb])] at h
      rw [List.map_cons, hother b hb, List.find?_cons_of_neg _ (by simp [hb])]
      exact ih h

theorem chooseCandidate_map_subst (sorted : List (Nat × Incident)) (i : Nat)
    (incident inc1 : Incident)
    (h : chooseCandidate sorted = some (i, incident))
    (hres1 : inc1.status ≠ "resolved") :
    chooseCandidate (sorted.map
        (fun q => if q = (i, incident) then (i, inc1) else q)) =
      some (i, inc1) := by
  unfold chooseCandidate at h ⊢
  cases hf : sorted.find? (fun q => !(q.2.status == "resolved")) with
  | some q =>
    rw [hf] at h
    simp only at h
    obtain rfl := Option.some.inj h
    have hmap := find?_map_of (fun q => !(q.2.status == "resolved"))
      (fun q => if q = (i, incident) then (i, inc1) else q) hf ?_ ?_
    · rw [hmap]
      simp
    · simp [hres1]
    · intro x hx
      by_cases hxe : x = (i, incident)
      · exfalso
        have hpa := List.find?_some hf
        rw [hxe] at hx
        simp only at hx hpa
        rw [hx] at hpa
        exact Bool.false_ne_true hpa
      · simp only
        rw [if_neg hxe]
  | none =>
    rw [hf] at h
    simp only at h
    obtain ⟨ys, rfl⟩ := List.head?_eq_some_iff.mp h
    rw [List.map_cons, if_pos rfl]
    rw [List.find?_cons_of_pos _ (by simp [hres1])]

theorem upsert_period (shard : Shard) (e : AlertEvent) :
    (upsertIncidentInShard shard e).period = shard.period := by
  unfold upsertIncidentInShard
  cases findMatchingIncident shard e with
  | none => rfl
  | some p =>
    obtain ⟨i, incident⟩ := p
    rfl

theorem upsert_items_of_some (shard : Shard) (e : AlertEvent) (i : Nat)
    (incident : Incident) (h : findMatchingIncident shard e = some (i, incident)) :
    (upsertIncidentInShard shard e).items =
      shard.items.set i (applyEventToIncident incident e) := by
  unfold upsertIncidentInShard
  rw [h]

theorem isCandidate_applyEvent (incident : Incident) (e : AlertEvent)
    (h : isCandidate e incident = true) :
    isCandidate e (applyEventToIncident incident e) = true := by
  unfold isCandidate at h ⊢
  rw [applyEvent_ingestion_key, applyEvent_title]
  simp only [Bool.or_eq_true] at h ⊢
  rcases h with hk | ht
  · exact Or.inl hk
  · have heq : normalizeSubject incident.title = normalizeSubject e.title := by
      simpa using ht
    right
    by_cases hT : incident.title = ""
    · rw [orElseStr, if_pos hT]
      simp
    · rw [orElseStr, if_neg hT]
      simp [heq]

/-- C1 (amended): a second application of the same well-formed alert event
(two-valued incident status, duplicate-free affected segments) to a shard
is the identity, provided that the event does not signal resolution or at
most one incident in the shard matches the event.  When a resolving event
matches two or more incidents the first application can resolve the open
candidate and the second application then selects and mutates a different,
already-resolved candidate, so unconditional idempotence fails. -/
theorem claim_C1_upsert_idempotent (shard : Shard) (e : AlertEvent)
    (hN : e.affectedSegments.Nodup)
    (hS : e.incidentStatus = "investigating" ∨ e.incidentStatus = "resolved")
    (hC : e.incidentStatus ≠ "resolved" ∨ (candidatesOf shard e).length ≤ 1) :
    upsertIncidentInShard (upsertIncidentInShard shard e) e =
      upsertIncidentInShard shard e := by
  cases hfind : findMatchingIncident shard e with
  | none =>
    have hnone := findMatchingIncident_none hfind
    have hsh1 : upsertIncidentInShard shard e =
        { shard with items := shard.items ++
          [appendEventUpdate (freshIncident (shard.items.map (·.id)) e) e] } := by
      unfold upsertIncidentInShard
      rw [hfind]
    rw [hsh1]
    have hc0 : isCandidate e
        (appendEventUpdate (freshIncident (shard.items.map (·.id)) e) e) = true := by
      unfold isCandidate
      rw [(appendEventUpdate_fields _ _).2.2.2.2.2.2.2.2]
      show (e.subjectKey == e.subjectKey || _) = true
      simp
    have hcands1 : candidatesOf { shard with items := shard.items ++
        [appendEventUpdate (freshIncident (shard.items.map (·.id)) e) e] } e =
        [(shard.items.length,
          appendEventUpdate (freshIncident (shard.items.map (·.id)) e) e)] := by
      unfold candidatesOf
      simp only
      rw [enumItems_append_singleton shard.items _ 0]
      rw [List.filter_append]
      have hold : (enumItems 0 shard.items).filter (fun p => isCandidate e p.2) = [] := by
        unfold candidatesOf at hnone
        exact hnone
      rw [hold]
      simp [hc0]
    have hfind1 : findMatchingIncident { shard with items := shard.items ++
        [appendEventUpdate (freshIncident (shard.items.map (·.id)) e) e] } e =
        some (shard.items.length,
          appendEventUpdate (freshIncident (shard.items.map (·.id)) e) e) := by
      unfold findMatchingIncident
      rw [hcands1, if_neg (by simp), sortByLt_singleton]
      unfold chooseCandidate
      by_cases hres : (appendEventUpdate
          (freshIncident (shard.items.map (·.id)) e) e).status = "resolved"
      · rw [List.find?_cons_of_neg _ (by simp [hres])]
        simp
      · rw [List.find?_cons_of_pos _ (by simp [hres])]
    apply Shard_eq_of_fields
    · rw [upsert_period]
    · rw [upsert_items_of_some _ _ _ _ hfind1]
      show (shard.items ++ [_]).set shard.items.length _ = shard.items ++ [_]
      rw [applyEvent_fresh_fix _ _ hN hS, set_append_singleton]
  | some p =>
    obtain ⟨i, incident⟩ := p
    have hmem := findMatchingIncident_mem hfind
    have hget := (candidatesOf_get hmem).1
    have hcand := (candidatesOf_get hmem).2
    have hcand1 : isCandidate e (applyEventToIncident incident e) = true :=
      isCandidate_applyEvent incident e hcand
    have hstart1 : (applyEventToIncident incident e).started_at = incident.started_at :=
      applyEvent_started_at incident e
    have hne : candidatesOf shard e ≠ [] := List.ne_nil_of_mem hmem
    have hemp : ¬ (candidatesOf shard e).isEmpty = true := by
      rw [List.isEmpty_iff]
      exact hne
    have hchoose : chooseCandidate (sortByLt (fun a b => b.2.started_at < a.2.started_at)
        (candidatesOf shard e)) = some (i, incident) := by
      unfold findMatchingIncident at hfind
      rw [if_neg hemp] at hfind
      exact hfind
    have hsh1 : upsertIncidentInShard shard e =
        { shard with items := shard.items.set i (applyEventToIncident incident e) } := by
      unfold upsertIncidentInShard
      rw [hfind]
    rw [hsh1]
    have hfix : applyEventToIncident (applyEventToIncident incident e) e =
        applyEventToIncident incident e := applyEventToIncident_fix incident e hS
    have hcset := candidatesOf_set shard e i incident (applyEventToIncident incident e)
      hget hcand hcand1
    by_cases hr : e.incidentStatus = "resolved"
    · have hlen : (candidatesOf shard e).length ≤ 1 := by
        rcases hC with hC | hC
        · exact absurd hr hC
        · exact hC
      have hsingle : candidatesOf shard e = [(i, incident)] := by
        cases hcof : candidatesOf shard e with
        | nil =>
          rw [hcof] at hmem
          simp at hmem
        | cons q rest =>
          cases rest with
          | nil =>
            rw [hcof] at hmem
            simp only [List.mem_singleton] at hmem
            rw [← hmem]
          | cons q2 rest2 =>
            rw [hcof] at hlen
            simp at hlen
      have hst1 : (applyEventToIncident incident e).status = "resolved" :=
        (applyEvent_status_resolved incident e hr).1
      have hfind1 : findMatchingIncident { shard with
          items := shard.items.set i (applyEventToIncident incident e) } e =
          some (i, applyEventToIncident incident e) := by
        unfold findMatchingIncident
        rw [hcset, hsingle]
        have hmapped : [(i, incident)].map
            (fun q => if q = (i, incident) then (i, applyEventToIncident incident e)
              else q) = [(i, applyEventToIncident incident e)] := by
          simp
        rw [hmapped, if_neg (by simp), sortByLt_singleton]
        unfold chooseCandidate
        rw [List.find?_cons_of_neg _ (by simp [hst1])]
        simp
      apply Shard_eq_of_fields
      · rw [upsert_period]
      · rw [upsert_items_of_some _ _ _ _ hfind1]
        show (shard.items.set i _).set i _ = shard.items.set i _
        rw [hfix, List.set_set]
    · have hSi : e.incidentStatus = "investigating" := by
        rcases hS with hS | hS
        · exact hS
        · exact absurd hS hr
      have hst1 : (applyEventToIncident incident e).status = "investigating" :=
        applyEvent_status_investigating incident e hSi
      have hfind1 : findMatchingIncident { shard with
          items := shard.items.set i (applyEventToIncident incident e) } e =
          some (i, applyEventToIncident incident e) := by
        unfold findMatchingIncident
        rw [hcset]
        rw [if_neg (by
          rw [List.isEmpty_iff]
          intro hmape
          exact hne (List.map_eq_nil_iff.mp hmape))]
        rw [sortCand_map_subst _ _ _ _ hstart1]
        exact chooseCandidate_map_subst _ _ _ _ hchoose (by rw [hst1]; decide)
      apply Shard_eq_of_fields
      · rw [upsert_period]
      · rw [upsert_items_of_some _ _ _ _ hfind1]
        show (shard.items.set i _).set i _ = shard.items.set i _
        rw [hfix, List.set_set]

set_option maxHeartbeats 4000000 in
theorem claim_C1_witness :
    upsertIncidentInShard
        (upsertIncidentInShard ⟨"1970-01", [incInvestigating]⟩ evResolving)
        evResolving =
      upsertIncidentInShard ⟨"1970-01", [incInvestigating]⟩ evResolving :=
  claim_C1_upsert_idempotent ⟨"1970-01", [incInvestigating]⟩ evResolving
    (by decide) (by decide) (by decide)

set_option maxHeartbeats 8000000 in
theorem claim_C1_counterexample :
    WellFormedEvent evResolving ∧
    upsertIncidentInShard (upsertIncidentInShard shardAB evResolving) evResolving ≠
      upsertIncidentInShard shardAB evResolving := by
  decide

end Caltrain
